import Mathlib

/-!
Verification development for the staleness-gated, lock-coordinated
external-resource cache of the github-chat repository.

The definitions below are shallow embeddings of the TypeScript source:
  * src/db/schema.ts                         (row shapes)
  * src/services/github/cache.ts             (refreshRepo / refreshCommit / refreshTree)
  * src/services/chroma/cache.ts             (refreshSource / refreshInvocation /
                                              refreshInvocationStatus, isTerminalStatus)
  * src/app/api/repos/[owner]/[repo]/status/route.ts
                                             (isTerminalStatus, isStale, needsRefresh,
                                              formatResponse, the GET tail)
Timestamps are modelled as `Int` (milliseconds since epoch, as in JS `Date`),
external fetch outcomes as explicit sum types, and the database rows touched by
each function as explicit record states threaded through the function.
-/

/-- Invocation status enum, `chromaSyncInvocationStatus` in src/db/schema.ts:
`["pending", "processing", "cancelled", "completed", "failed"]`. -/
inductive InvStatus
  | pending
  | processing
  | cancelled
  | completed
  | failed
deriving DecidableEq, Repr

/-- `isTerminalStatus(status: string | null)` from
src/services/chroma/cache.ts (an identical copy lives in the status route):
`status === "completed" || status === "failed" || status === "cancelled"`.
`none` models a SQL NULL status and is not terminal. -/
def isTerminalStatus (s : Option InvStatus) : Bool :=
  s == some .completed || s == some .failed || s == some .cancelled

/-- `isStale(fetchedAt, maxAge)` from the status route:
`Date.now() - fetchedAt.getTime() > maxAge`. -/
def isStale (now fetchedAt maxAge : Int) : Bool :=
  now - fetchedAt > maxAge

/-- JS truthiness of a `string | null` value: `null` and `""` are falsy. -/
def jsFalsy : Option String → Bool
  | none => true
  | some s => s == ""

/-- `STATUS_UPDATE_THRESHOLD_MS` (2 seconds) from src/services/chroma/cache.ts. -/
def STATUS_UPDATE_THRESHOLD_MS : Int := 2000

/-- `ONE_DAY_MS` from src/services/github/cache.ts. -/
def ONE_DAY_MS : Int := 24 * 60 * 60 * 1000

/-- `ONE_MONTH_MS` from src/services/github/cache.ts. -/
def ONE_MONTH_MS : Int := 30 * 24 * 60 * 60 * 1000

/-! ## Row shapes (src/db/schema.ts) -/

/-- A `github_repo` row: `available` is the tri-state
(`null` = not fetched yet, `true` = available, `false` = not available). -/
structure RepoRow where
  name : String
  available : Option Bool
  fetchedAt : Int
deriving DecidableEq, Repr

/-- A `github_repo_details` row (exists only when the repo is available). -/
structure RepoDetailsRow where
  description : String
  defaultBranch : String
  htmlUrl : String
  language : String
  stargazersCount : Int
  forksCount : Int
  watchersCount : Int
  openIssuesCount : Int
  subscribersCount : Int
  fork : Bool
  isPrivate : Bool          -- source column name: `private`
  licenseName : Option String
  createdAt : Int
deriving DecidableEq, Repr

/-- A `github_repo_state` row. -/
structure RepoStateRow where
  latestCommitSha : Option String
  latestProcessedCommitSha : Option String
  fetchedAt : Int
deriving DecidableEq, Repr

/-- A `github_repo_commit` row (keyed by `sha`). -/
structure CommitRow where
  sha : String
  repoName : String
  treeSha : String
  message : String
  authorName : Option String
  authorDate : Option Int
  htmlUrl : String
  fetchedAt : Int
deriving DecidableEq, Repr

/-- A `github_repo_trees` row (keyed by `tree_sha`); the jsonb `tree`
payload is opaque to the cache logic and modelled as a `Nat`. -/
structure TreeRow where
  treeSha : String
  repoName : String
  tree : Option Nat
  fetchedAt : Int
deriving DecidableEq, Repr

/-- A `chroma_sync_sources` row. -/
structure SourceRow where
  id : Nat
  repoName : String
  uuid : Option String
  createdAt : Int
deriving DecidableEq, Repr

/-- A `chroma_sync_invocations` row. -/
structure InvRow where
  id : Nat
  sourceUuid : String
  refIdentifier : String
  targetCollectionName : String
  uuid : Option String
  status : Option InvStatus
  createdAt : Int
  fetchedAt : Int
deriving DecidableEq, Repr

/-! ## GitHub client results (src/services/github/client.ts, src/types/github) -/

/-- The `GitHubRepo` value built by `getRepository` on success. -/
structure GitHubRepoData where
  name : String
  description : Option String
  defaultBranch : String
  htmlUrl : String
  language : Option String
  stargazersCount : Int
  forksCount : Int
  watchersCount : Int
  openIssuesCount : Int
  subscribersCount : Int
  fork : Bool
  isPrivate : Bool          -- source field name: `private`
  licenseName : Option String
deriving DecidableEq, Repr

/-- Outcome of awaiting `getRepository`: `{type:"repo"}`, `{type:"error"}`
(404 not found / 403 inaccessible) or a thrown exception. -/
inductive RepoFetch
  | repo (r : GitHubRepoData)
  | error
  | thrown
deriving DecidableEq, Repr

/-- The `GitHubCommit` value built by `getBranchCommit` on success. -/
structure GitHubCommitData where
  sha : String
  treeSha : String
  message : String
  authorName : String
  authorDate : Int
  htmlUrl : String
deriving DecidableEq, Repr

/-- Outcome of awaiting `getBranchCommit`: a commit, `null` (404) or a throw. -/
inductive CommitFetch
  | commit (c : GitHubCommitData)
  | notFound
  | thrown
deriving DecidableEq, Repr

/-- Outcome of awaiting `getRepositoryTree`: a tree payload (opaque),
`null` (404 / 403) or a throw. -/
inductive TreeFetch
  | tree (v : Nat)
  | notFound
  | thrown
deriving DecidableEq, Repr

/-- Outcome of awaiting `getInvocationStatus` (already normalized by
`normalizeStatus` in src/services/chroma/sync.ts). -/
inductive StatusFetch
  | ok (st : InvStatus)
  | thrown
deriving DecidableEq, Repr

/-- Outcome of awaiting `createInvocation`: an externally assigned
invocation id, or a throw. -/
inductive CreateInvFetch
  | ok (invocationId : String)
  | thrown
deriving DecidableEq, Repr

/-! ## refreshRepo (src/services/github/cache.ts, single caller)

The functional embedding runs the body of `refreshRepo` for one caller with
no lock contention: the claim-attempt `SELECT ... FOR UPDATE SKIP LOCKED`
returns the row exactly when the eligibility predicate holds.  The
interleaved multi-caller semantics is modelled separately below. -/

/-- The slice of the database `refreshRepo` touches for one repo key. -/
structure RepoDb where
  repoRow : Option RepoRow
  detailsRow : Option RepoDetailsRow
deriving DecidableEq, Repr

/-- The `whereClause` of `refreshRepo`'s claim attempt: with `force` the
predicate is just the key equality; otherwise the row must be eligible —
`isNull(githubRepo.available)` or `lt(githubRepo.fetchedAt, new Date(Date.now() - TTL))`. -/
def repoWhere (row : RepoRow) (now ttl : Int) (force : Bool) : Bool :=
  if force then true
  else row.available == none || decide (row.fetchedAt < now - ttl)

/-- The `github_repo_details` record written by `refreshRepo` in the
`"repo"` case (`description: fetched.description || ""` etc.). -/
def detailsRowOf (r : GitHubRepoData) (now : Int) : RepoDetailsRow :=
  { description := r.description.getD ""
    defaultBranch := r.defaultBranch
    htmlUrl := r.htmlUrl
    language := r.language.getD ""
    stargazersCount := r.stargazersCount
    forksCount := r.forksCount
    watchersCount := r.watchersCount
    openIssuesCount := r.openIssuesCount
    subscribersCount := r.subscribersCount
    fork := r.fork
    isPrivate := r.isPrivate
    licenseName := r.licenseName
    createdAt := now }

/-- The fallback read at the end of `refreshRepo`: join `github_repo` with
`github_repo_details`; return `null` unless the row exists, is available
(`!current[0].repo.available` rejects `null` and `false`) and has details;
`description: row.details.description || null` maps `""` back to `null`. -/
def repoFallbackRead (db : RepoDb) : Option GitHubRepoData :=
  match db.repoRow with
  | none => none
  | some row =>
    if row.available ≠ some true then none
    else
      match db.detailsRow with
      | none => none
      | some d =>
        some { name := row.name
               description := if d.description == "" then none else some d.description
               defaultBranch := d.defaultBranch
               htmlUrl := d.htmlUrl
               language := if d.language == "" then none else some d.language
               stargazersCount := d.stargazersCount
               forksCount := d.forksCount
               watchersCount := d.watchersCount
               openIssuesCount := d.openIssuesCount
               subscribersCount := d.subscribersCount
               fork := d.fork
               isPrivate := d.isPrivate
               licenseName := d.licenseName }

/-- Result of one `refreshRepo` run: the database slice afterwards, the
returned value (`none` also when an exception escaped), whether the
exception escaped, and whether the external fetch was issued. -/
structure RepoRunOut where
  db : RepoDb
  result : Option GitHubRepoData
  threw : Bool
  fetchIssued : Bool
deriving DecidableEq, Repr

/-- `refreshRepo(owner, repo, TTL, force)` for a single caller.
Steps transcribed from src/services/github/cache.ts:
1. insert placeholder `{name, available: null}` on conflict do nothing;
2. transaction: select the row under `repoWhere` (claim attempt);
3. if a row was claimed, await `getRepository`; on `"repo"` write
   `{available: true, fetchedAt: now}` and upsert the details row,
   returning the fetched value; on `"error"` write
   `{available: false, fetchedAt: now}` and return `null`; a thrown
   fetch aborts the transaction (no write) and propagates;
4. if the transaction produced `null`, do the fallback read. -/
def refreshRepoRun (repoName : String) (db0 : RepoDb) (now ttl : Int)
    (force : Bool) (fetch : RepoFetch) : RepoRunOut :=
  let db1 : RepoDb :=
    match db0.repoRow with
    | none =>
      { db0 with repoRow := some { name := repoName, available := none, fetchedAt := now } }
    | some _ => db0
  match db1.repoRow with
  | none => { db := db1, result := none, threw := false, fetchIssued := false }
  | some row =>
    if repoWhere row now ttl force then
      match fetch with
      | .repo r =>
        let db2 : RepoDb :=
          { repoRow := some { row with available := some true, fetchedAt := now }
            detailsRow := some (detailsRowOf r now) }
        { db := db2, result := some r, threw := false, fetchIssued := true }
      | .error =>
        let db2 : RepoDb :=
          { db1 with repoRow := some { row with available := some false, fetchedAt := now } }
        { db := db2, result := repoFallbackRead db2, threw := false,
          fetchIssued := true }
      | .thrown =>
        { db := db1, result := none, threw := true, fetchIssued := true }
    else
      { db := db1, result := repoFallbackRead db1, threw := false,
        fetchIssued := false }

/-! ## refreshCommit (src/services/github/cache.ts, single caller) -/

/-- The slice of the database `refreshCommit` touches for one repo key:
its `github_repo_state` row and the `github_repo_commit` table (keyed by sha). -/
structure CommitDb where
  stateRow : Option RepoStateRow
  commits : List (String × CommitRow)
deriving DecidableEq, Repr

/-- The `whereClause` of `refreshCommit`'s claim attempt:
`force`, or `isNull(latestCommitSha)`, or `fetchedAt < now - TTL`. -/
def commitWhere (row : RepoStateRow) (now ttl : Int) (force : Bool) : Bool :=
  if force then true
  else row.latestCommitSha == none || decide (row.fetchedAt < now - ttl)

/-- `insert ... onConflictDoUpdate({target: sha, set: newCommit})` for the
commit row: on conflict only the `newCommit` fields are replaced
(`repoName` and `fetchedAt` are kept); a fresh insert uses the defaults. -/
def upsertCommit (commits : List (String × CommitRow)) (repoName : String)
    (c : GitHubCommitData) (now : Int) : CommitRow × List (String × CommitRow) :=
  match commits.lookup c.sha with
  | some old =>
    let row : CommitRow :=
      { old with treeSha := c.treeSha, message := c.message,
                 authorName := some c.authorName, authorDate := some c.authorDate,
                 htmlUrl := c.htmlUrl }
    (row, commits.map (fun p => if p.1 = c.sha then (p.1, row) else p))
  | none =>
    let row : CommitRow :=
      { sha := c.sha, repoName := repoName, treeSha := c.treeSha,
        message := c.message, authorName := some c.authorName,
        authorDate := some c.authorDate, htmlUrl := c.htmlUrl, fetchedAt := now }
    (row, (c.sha, row) :: commits)

/-- The fallback read at the end of `refreshCommit`: state row left-joined
with the commit row `eq(githubRepoCommit.sha, githubRepoState.latestCommitSha)`;
returns `current[0]?.commit || null`. -/
def commitFallbackRead (db : CommitDb) : Option CommitRow :=
  match db.stateRow with
  | none => none
  | some row =>
    match row.latestCommitSha with
    | none => none
    | some sha => db.commits.lookup sha

/-- Result of one `refreshCommit` run. -/
structure CommitRunOut where
  db : CommitDb
  result : Option CommitRow
  threw : Bool
  fetchIssued : Bool
deriving DecidableEq, Repr

/-- `refreshCommit(owner, repo, branch, TTL, force)` for a single caller.
Transcribed from src/services/github/cache.ts: placeholder insert of the
state row, claim attempt under `commitWhere`; on a claimed row await
`getBranchCommit`; if it returns `null` (branch 404) the transaction
returns `null` WITHOUT writing anything; otherwise upsert the commit row
and set `{latestCommitSha: sha, fetchedAt: now}` on the state row and
return the upserted commit; a throw aborts the transaction; a `null`
transaction result falls back to the unlocked-state read. -/
def refreshCommitRun (repoName : String) (db0 : CommitDb) (now ttl : Int)
    (force : Bool) (fetch : CommitFetch) : CommitRunOut :=
  let db1 : CommitDb :=
    match db0.stateRow with
    | none =>
      { db0 with stateRow := some { latestCommitSha := none,
                                    latestProcessedCommitSha := none,
                                    fetchedAt := now } }
    | some _ => db0
  match db1.stateRow with
  | none => { db := db1, result := none, threw := false, fetchIssued := false }
  | some row =>
    if commitWhere row now ttl force then
      match fetch with
      | .commit c =>
        let (commitRow, commits2) := upsertCommit db1.commits repoName c now
        let db2 : CommitDb :=
          { stateRow := some { row with latestCommitSha := some c.sha, fetchedAt := now }
            commits := commits2 }
        { db := db2, result := some commitRow, threw := false, fetchIssued := true }
      | .notFound =>
        { db := db1, result := commitFallbackRead db1, threw := false,
          fetchIssued := true }
      | .thrown =>
        { db := db1, result := none, threw := true, fetchIssued := true }
    else
      { db := db1, result := commitFallbackRead db1, threw := false,
        fetchIssued := false }

/-! ## refreshTree (src/services/github/cache.ts, single caller) -/

/-- The slice of the database `refreshTree` touches: the one
`github_repo_trees` row for the given tree sha. -/
structure TreeDb where
  treeRow : Option TreeRow
deriving DecidableEq, Repr

/-- The `whereClause` of `refreshTree`'s claim attempt:
`force`, or `isNull(tree)`, or `fetchedAt < now - TTL`. -/
def treeWhere (row : TreeRow) (now ttl : Int) (force : Bool) : Bool :=
  if force then true
  else row.tree == none || decide (row.fetchedAt < now - ttl)

/-- Result of one `refreshTree` run. -/
structure TreeRunOut where
  db : TreeDb
  result : Option TreeRow
  threw : Bool
  fetchIssued : Bool
deriving DecidableEq, Repr

/-- `refreshTree(owner, repo, treeSha, TTL, force)` for a single caller.
Placeholder insert `{repoName, treeSha, tree: null}`; claim attempt under
`treeWhere`; on a claimed row await `getRepositoryTree`; `null` (404/403)
makes the transaction return `null` WITHOUT writing; otherwise update
`{tree, fetchedAt: now}` and return the updated row; a `null` transaction
result falls back to the read of the current row. -/
def refreshTreeRun (repoName treeSha : String) (db0 : TreeDb) (now ttl : Int)
    (force : Bool) (fetch : TreeFetch) : TreeRunOut :=
  let db1 : TreeDb :=
    match db0.treeRow with
    | none =>
      { treeRow := some { treeSha := treeSha, repoName := repoName,
                          tree := none, fetchedAt := now } }
    | some _ => db0
  match db1.treeRow with
  | none => { db := db1, result := none, threw := false, fetchIssued := false }
  | some row =>
    if treeWhere row now ttl force then
      match fetch with
      | .tree v =>
        let row2 : TreeRow := { row with tree := some v, fetchedAt := now }
        { db := { treeRow := some row2 }, result := some row2, threw := false,
          fetchIssued := true }
      | .notFound =>
        { db := db1, result := db1.treeRow, threw := false, fetchIssued := true }
      | .thrown =>
        { db := db1, result := none, threw := true, fetchIssued := true }
    else
      { db := db1, result := db1.treeRow, threw := false, fetchIssued := false }

/-! ## refreshInvocationStatus (src/services/chroma/cache.ts, single caller) -/

/-- The `whereClause` of `refreshInvocationStatus`'s claim attempt: with
`force` just the id equality; otherwise only
`lt(fetchedAt, new Date(Date.now() - TTL))` — note there is NO
first-fetch disjunct here. -/
def invStatusWhere (row : InvRow) (now ttl : Int) (force : Bool) : Bool :=
  if force then true
  else decide (row.fetchedAt < now - ttl)

/-- Result of one `refreshInvocationStatus` run.  `dbInv` is the
`chroma_sync_invocations` row keyed by `invocation.id` afterwards. -/
structure InvStatusRunOut where
  dbInv : Option InvRow
  result : Option InvRow
  threw : Bool
  fetchIssued : Bool
deriving DecidableEq, Repr

/-- `refreshInvocationStatus(invocation, TTL, force)` for a single caller.
Transcribed from src/services/chroma/cache.ts:
* `if (!invocation.uuid) return null;`
* `if (isTerminalStatus(invocation.status) && !force) return invocation;`
* transaction: select the row by id under `invStatusWhere` (claim attempt);
  `if (res.length > 0 && res[0].invocation.uuid)` await
  `getInvocationStatus` and write `{status, fetchedAt: now}`, returning
  the updated row; a throw aborts the transaction;
* a `null` transaction result falls back to reading the current row. -/
def refreshInvocationStatusRun (db : Option InvRow) (invocation : InvRow)
    (now ttl : Int) (force : Bool) (fetch : StatusFetch) : InvStatusRunOut :=
  if invocation.uuid == none then
    { dbInv := db, result := none, threw := false, fetchIssued := false }
  else if isTerminalStatus invocation.status && !force then
    { dbInv := db, result := some invocation, threw := false, fetchIssued := false }
  else
    match db with
    | none => { dbInv := none, result := none, threw := false, fetchIssued := false }
    | some row =>
      if invStatusWhere row now ttl force && row.uuid.isSome then
        match fetch with
        | .ok st =>
          let row2 : InvRow := { row with status := some st, fetchedAt := now }
          { dbInv := some row2, result := some row2, threw := false,
            fetchIssued := true }
        | .thrown =>
          { dbInv := some row, result := none, threw := true, fetchIssued := true }
      else
        { dbInv := some row, result := some row, threw := false, fetchIssued := false }

/-! ## refreshInvocation (src/services/chroma/cache.ts, single caller) -/

/-- The slice of the database `refreshInvocation` touches: the
`chroma_sync_sources` row for the repo and the `chroma_sync_invocations`
row for the (source, ref) natural key. -/
structure InvDb where
  source : Option SourceRow
  inv : Option InvRow
deriving DecidableEq, Repr

/-- Result of one `refreshInvocation` run.  `createdWithName` records the
`target_collection_name` argument passed to the external
`createInvocation` call, when it was issued. -/
structure InvRunOut where
  db : InvDb
  result : Option InvRow
  threw : Bool
  createIssued : Bool
  createdWithName : Option String
deriving DecidableEq, Repr

/-- `refreshInvocation(owner, repo, commitSha)` for a single caller.
Transcribed from src/services/chroma/cache.ts:
* read the source row; `if (!source?.uuid) return null;`
* `const collectionName = randomUUID();` (modelled as the parameter
  `freshName` — fresh on every call);
* placeholder insert `{sourceUuid, refIdentifier, targetCollectionName:
  collectionName, uuid: null, status: "pending"}` on conflict do nothing
  (unique on (source, ref), id from the serial column is `newId`);
* transaction: select the row for (source, ref) with `isNull(uuid)`
  (claim attempt); if claimed, await
  `createInvocation(sourceUuid, commitSha, res[0].invocation.targetCollectionName)`
  — NOTE: the name stored in the claimed row, not `freshName` — then write
  `{uuid: created.invocation_id, fetchedAt: now}` and return the row;
  a throw aborts the transaction;
* a `null` transaction result falls back to reading the current row. -/
def refreshInvocationRun (db0 : InvDb) (commitSha freshName : String)
    (newId : Nat) (now : Int) (fetch : CreateInvFetch) : InvRunOut :=
  match db0.source with
  | none =>
    { db := db0, result := none, threw := false, createIssued := false,
      createdWithName := none }
  | some source =>
    match source.uuid with
    | none =>
      { db := db0, result := none, threw := false, createIssued := false,
        createdWithName := none }
    | some sourceUuid =>
      let db1 : InvDb :=
        match db0.inv with
        | none =>
          { db0 with inv := some { id := newId, sourceUuid := sourceUuid,
                                   refIdentifier := commitSha,
                                   targetCollectionName := freshName,
                                   uuid := none, status := some .pending,
                                   createdAt := now, fetchedAt := now } }
        | some _ => db0
      match db1.inv with
      | none =>
        { db := db1, result := none, threw := false, createIssued := false,
          createdWithName := none }
      | some row =>
        if row.uuid == none then
          match fetch with
          | .ok invocationId =>
            let row2 : InvRow := { row with uuid := some invocationId, fetchedAt := now }
            { db := { db1 with inv := some row2 }, result := some row2,
              threw := false, createIssued := true,
              createdWithName := some row.targetCollectionName }
          | .thrown =>
            { db := db1, result := none, threw := true, createIssued := true,
              createdWithName := some row.targetCollectionName }
        else
          { db := db1, result := db1.inv, threw := false, createIssued := false,
            createdWithName := none }

/-! ## Status route (src/app/api/repos/[owner]/[repo]/status/route.ts) -/

/-- The `CurrentState` snapshot assembled by `getCurrentState`. -/
structure CurrentState where
  repo : Option RepoRow
  repoDetails : Option RepoDetailsRow
  state : Option RepoStateRow
  latestCommit : Option CommitRow
  latestProcessedCommit : Option CommitRow
  tree : Option TreeRow
  source : Option SourceRow
  invocation : Option InvRow
deriving DecidableEq, Repr

/-- `StatusResponse["sync_status"]`. -/
inductive SyncStatus
  | processing
  | up_to_date
  | out_of_date
deriving DecidableEq, Repr

/-- Commit fields surfaced in the response. -/
structure CommitSummary where
  sha : String
  message : String
  authorName : Option String
  authorDate : Option Int
  htmlUrl : String
deriving DecidableEq, Repr

/-- `repo_info` fields surfaced in the response. -/
structure RepoInfo where
  fullName : String
  description : String
  htmlUrl : String
  language : String
  stargazersCount : Int
  forksCount : Int
  watchersCount : Int
  openIssuesCount : Int
deriving DecidableEq, Repr

/-- The `StatusResponse` assembled by `formatResponse` (`exists` is a Lean
keyword, hence `existsFlag`). -/
structure StatusResponse where
  existsFlag : Bool
  sync_status : SyncStatus
  is_private : Bool
  repo_info : Option RepoInfo
  latest_commit : Option CommitSummary
  latest_processed_commit : Option CommitSummary
  tree : Option Nat
deriving DecidableEq, Repr

/-- `formatResponse(state)` transcribed from the status route.  The
`sync_status` branch reads:
`if (!state.state || !state.state.latestProcessedCommitSha) "processing";
 else if (state.state.latestCommitSha === state.state.latestProcessedCommitSha)
 "up_to_date"; else "out_of_date"` — with JS truthiness on
`latestProcessedCommitSha` (`null` and `""` are falsy). -/
def formatResponse (state : CurrentState) : StatusResponse :=
  let syncStatus : SyncStatus :=
    match state.state with
    | none => .processing
    | some s =>
      if jsFalsy s.latestProcessedCommitSha then .processing
      else if s.latestCommitSha == s.latestProcessedCommitSha then .up_to_date
      else .out_of_date
  { existsFlag := (state.repo.bind (·.available)) == some true
    sync_status := syncStatus
    is_private := (state.repoDetails.map (·.isPrivate)).getD false
    repo_info :=
      state.repoDetails.map (fun d =>
        { fullName := (state.repo.map (·.name)).getD ""
          description := d.description
          htmlUrl := d.htmlUrl
          language := d.language
          stargazersCount := d.stargazersCount
          forksCount := d.forksCount
          watchersCount := d.watchersCount
          openIssuesCount := d.openIssuesCount })
    latest_commit :=
      state.latestCommit.map (fun c =>
        { sha := c.sha, message := c.message, authorName := c.authorName,
          authorDate := c.authorDate, htmlUrl := c.htmlUrl })
    latest_processed_commit :=
      state.latestProcessedCommit.map (fun c =>
        { sha := c.sha, message := c.message, authorName := c.authorName,
          authorDate := c.authorDate, htmlUrl := c.htmlUrl })
    tree := state.tree.bind (·.tree) }

/-- The spec's wording of the readiness derivation (spec §4.3 step 5 and
the claim): `processing` if no commit has been fully indexed yet
(`latestProcessedCommitSha` absent), `up_to_date` if the latest known
commit SHA equals the latest fully-indexed commit SHA, `out_of_date`
in every other case.  Absence is plain `Option` absence here. -/
def syncStatusSpec (state : Option RepoStateRow) : SyncStatus :=
  match state with
  | none => .processing
  | some s =>
    match s.latestProcessedCommitSha with
    | none => .processing
    | some p => if s.latestCommitSha == some p then .up_to_date else .out_of_date

/-- `needsRefresh.commit` from the status route:
`!state.state || !state.state.latestCommitSha || isStale(state.state.fetchedAt, ONE_DAY_MS)`. -/
def needsCommitRefresh (st : CurrentState) (now : Int) : Bool :=
  match st.state with
  | none => true
  | some s => jsFalsy s.latestCommitSha || isStale now s.fetchedAt ONE_DAY_MS

/-- `needsRefresh.tree` from the status route:
`state.latestCommit && (!state.tree || state.tree.tree === null)`. -/
def needsTreeRefresh (st : CurrentState) : Bool :=
  st.latestCommit.isSome &&
    (match st.tree with
     | none => true
     | some t => t.tree == none)

/-- `needsRefresh.source` from the status route:
`!state.source || (state.source && !state.source.uuid)`. -/
def needsSourceRefresh (st : CurrentState) : Bool :=
  match st.source with
  | none => true
  | some s => jsFalsy s.uuid

/-- `needsRefresh.invocation` from the status route:
`state.latestCommit && state.source && !state.invocation`. -/
def needsInvocationRefresh (st : CurrentState) : Bool :=
  st.latestCommit.isSome && st.source.isSome && st.invocation == none

/-- `needsRefresh.invocationStatus` from the status route:
`state.invocation && !isTerminalStatus(state.invocation.status) &&
 state.invocation.fetchedAt && isStale(state.invocation.fetchedAt,
 STATUS_UPDATE_THRESHOLD_MS)` (a `Date` is always truthy, so the third
conjunct is constant). -/
def needsInvocationStatusRefresh (st : CurrentState) (now : Int) : Bool :=
  match st.invocation with
  | none => false
  | some inv =>
    !isTerminalStatus inv.status &&
      isStale now inv.fetchedAt STATUS_UPDATE_THRESHOLD_MS

/-- The advance step at the end of the status route's GET handler:
`if (updated?.status && isTerminalStatus(updated?.status))` update
`githubRepoState` setting `latestProcessedCommitSha` to
`updated?.refIdentifier` (a no-op when the state row is missing).
The guard fires on EVERY terminal status, `failed` and `cancelled`
included. -/
def advanceLatestProcessed (stateRow : Option RepoStateRow)
    (updated : Option InvRow) : Option RepoStateRow :=
  match updated with
  | none => stateRow
  | some u =>
    if u.status.isSome && isTerminalStatus u.status then
      stateRow.map (fun s => { s with latestProcessedCommitSha := some u.refIdentifier })
    else stateRow

/-- The slice of the database whose writes the GET tail can be observed
to perform directly: the repo's `github_repo_state` row and the
invocation row of the snapshot. -/
structure RouteDb where
  stateRow : Option RepoStateRow
  invRow : Option InvRow
deriving DecidableEq, Repr

/-- Result of the GET tail: `response = none` models the `catch` branch
(HTTP 500) reached when the awaited invocation-status refresh throws. -/
structure GetTailOut where
  response : Option StatusResponse
  db : RouteDb
deriving DecidableEq, Repr

/-- The four fire-and-forget refreshes of the status route
(`refreshCommit`, `refreshTree`, `refreshSource`, `refreshInvocation` —
called without `await`), modelled as arbitrary database effects
`fCommit fTree fSource fInv`, gated by the exact guards of the source. -/
def backgroundRefreshes (db0 : RouteDb) (st : CurrentState) (now : Int)
    (fCommit fTree fSource fInv : RouteDb → RouteDb) : RouteDb :=
  let db1 :=
    if needsCommitRefresh st now
        && ((st.repo.bind (fun r => r.available)) == some true)
        && !(match st.repoDetails with
             | none => true
             | some d => d.defaultBranch == "")
    then fCommit db0 else db0
  let db2 := if needsTreeRefresh st && st.latestCommit.isSome then fTree db1 else db1
  let db3 :=
    if needsSourceRefresh st && ((st.repo.bind (fun r => r.available)) == some true)
    then fSource db2 else db2
  if needsInvocationRefresh st && st.latestCommit.isSome && st.source.isSome
  then fInv db3 else db3

/-- The tail of the status route's GET handler, starting after
the availability checks, with `st` the `CurrentState` snapshot already
in hand.  The four fire-and-forget refreshes are `backgroundRefreshes`
(arbitrary effects, gated by the exact guards of the source); the
awaited `refreshInvocationStatus` and the `latestProcessedCommitSha`
advance are modelled concretely.  The response is
`NextResponse.json(formatResponse(state))` — built from the snapshot
`st`, not from the database as written. -/
def getStatusTail (db0 : RouteDb) (st : CurrentState) (now : Int)
    (fCommit fTree fSource fInv : RouteDb → RouteDb)
    (statusFetch : StatusFetch) : GetTailOut :=
  let db4 := backgroundRefreshes db0 st now fCommit fTree fSource fInv
  match st.invocation with
  | some inv =>
    if needsInvocationStatusRefresh st now then
      let o := refreshInvocationStatusRun db4.invRow inv now
                 STATUS_UPDATE_THRESHOLD_MS false statusFetch
      let dbA : RouteDb := { db4 with invRow := o.dbInv }
      if o.threw then
        { response := none, db := dbA }
      else
        { response := some (formatResponse st)
          db := { dbA with stateRow := advanceLatestProcessed dbA.stateRow o.result } }
    else { response := some (formatResponse st), db := db4 }
  | none => { response := some (formatResponse st), db := db4 }

/-! ## Interleaved multi-caller semantics

The three transition systems below model N concurrent callers of
`refreshSource`, `refreshRepo` and `refreshInvocation` sharing one
database row, across independent request handlers.  Each awaited
database or HTTP operation of the TypeScript source is one atomic step;
a scheduler (a list of caller indices) picks who steps next.  The row
lock taken by `SELECT ... FOR UPDATE` is transaction-scoped: it is
acquired at the claim attempt, released at commit, makes a concurrent
claim attempt with `SKIP LOCKED` see zero rows, and makes a concurrent
plain `FOR UPDATE` read wait (that step is disabled until release). -/


/-- Pointwise update of a program-counter map (plain `ite`, so that it
evaluates by `decide`). -/
def updFn {α : Type} {n : Nat} (f : Fin n → α) (i : Fin n) (v : α) : Fin n → α :=
  fun j => if j = i then v else f j

/-- A cast-free `DecidableEq` for `Option` (the derived instance
transports `Decidable` along an equality proof, which blocks kernel
evaluation when the two sides are equal only propositionally). -/
instance optionDecEqNoCast {α : Type} [DecidableEq α] : DecidableEq (Option α) :=
  fun a b =>
    match a, b with
    | none, none => isTrue rfl
    | none, some _ => isFalse (fun h => Option.noConfusion h)
    | some _, none => isFalse (fun h => Option.noConfusion h)
    | some x, some y => decidable_of_iff (x = y) (by simp)

/-! ### refreshSource under concurrency (src/services/chroma/cache.ts) -/

/-- Program counter of one `refreshSource` caller:
`start` — before the optimistic uuid-not-null read;
`toInsert` — optimistic check missed, before the placeholder insert;
`toSelect` — before the claim attempt (`FOR UPDATE SKIP LOCKED`, `uuid IS NULL`);
`winner` — claim succeeded, external `createSource` call in flight;
`committer id` — `createSource` returned `id`, before write-back + commit;
`done ret` — returned; `ret` is the returned row's uuid column
(`some u` a row with uuid `u`, `none` no row). -/
inductive SProc
  | start
  | toInsert
  | toSelect
  | fallback
  | winner
  | committer (id : Nat)
  | done (ret : Option (Option Nat))
deriving DecidableEq, Repr

/-- `true` on the two program points at which the caller's transaction
holds the row lock. -/
def SProc.holds : SProc → Bool
  | .winner => true
  | .committer _ => true
  | _ => false

/-- `true` on `committer _`. -/
def SProc.isCommitter : SProc → Bool
  | .committer _ => true
  | _ => false

/-- `true` on `done _`. -/
def SProc.isDone : SProc → Bool
  | .done _ => true
  | _ => false

/-- Shared state of N concurrent `refreshSource` callers on one repo key:
the `chroma_sync_sources` row (existence plus its `source_uuid` column,
external uuids modelled as `Nat`), the row-lock holder, the number of
external `createSource` calls issued so far, and each caller's program
counter. -/
structure SrcSys (n : Nat) where
  rowExists : Bool
  rowUuid : Option Nat
  lockHeld : Option (Fin n)
  createCount : Nat
  pc : Fin n → SProc

instance (n : Nat) : DecidableEq (SrcSys n) := fun a b =>
  decidable_of_iff
    (a.rowExists = b.rowExists ∧ a.rowUuid = b.rowUuid ∧
      a.lockHeld = b.lockHeld ∧ a.createCount = b.createCount ∧
      List.ofFn a.pc = List.ofFn b.pc)
    (by cases a; cases b; simp [List.ofFn_inj])

/-- One atomic step of caller `i` in `refreshSource`, `none` when `i`
has no step (it already returned).  Transcribed from
src/services/chroma/cache.ts:
* `start`: `select ... where repoName and uuid is not null limit 1` —
  if a row with a uuid exists return it, else continue;
* `toInsert`: `insert {repoName, uuid: null} onConflictDoNothing`;
* `toSelect`: `select ... where repoName and uuid is null for update
  skipLocked` — a row comes back only if it exists, its uuid is null and
  nobody holds the lock; then `i` becomes the winner, otherwise it falls
  through to the fallback read;
* `winner`: await `createSource(owner, repo)` (the external id is
  modelled as `i.val`, distinct per caller);
* `committer id`: `update ... set uuid` + commit (releases the lock) and
  return the updated row;
* `fallback`: final `select ... where repoName limit 1` — plain read,
  no `FOR UPDATE` in this function, hence never blocked. -/
def srcStep {n : Nat} (i : Fin n) (s : SrcSys n) : Option (SrcSys n) :=
  match s.pc i with
  | .start =>
    if s.rowExists then
      match s.rowUuid with
      | some u => some { s with pc := updFn s.pc i (.done (some (some u))) }
      | none => some { s with pc := updFn s.pc i .toInsert }
    else some { s with pc := updFn s.pc i .toInsert }
  | .toInsert =>
    some { s with rowExists := true
                  rowUuid := if s.rowExists then s.rowUuid else none
                  pc := updFn s.pc i .toSelect }
  | .toSelect =>
    if s.rowExists && s.rowUuid.isNone && s.lockHeld.isNone then
      some { s with lockHeld := some i, pc := updFn s.pc i .winner }
    else
      some { s with pc := updFn s.pc i .fallback }
  | .winner =>
    some { s with createCount := s.createCount + 1
                  pc := updFn s.pc i (.committer i.val) }
  | .committer id =>
    some { s with rowUuid := some id
                  lockHeld := none
                  pc := updFn s.pc i (.done (some (some id))) }
  | .fallback =>
    some { s with pc := updFn s.pc i
                    (.done (if s.rowExists then some s.rowUuid else none)) }
  | .done _ => none

/-- Run a schedule: at each trace element the named caller takes its next
atomic step; the run is undefined if a disabled caller is scheduled. -/
def srcRun {n : Nat} : List (Fin n) → SrcSys n → Option (SrcSys n)
  | [], s => some s
  | i :: t, s =>
    match srcStep i s with
    | none => none
    | some s' => srcRun t s'

/-- The uninitialized key: no row, no lock, no external call yet, every
caller about to do its optimistic check. -/
def srcInit (n : Nat) : SrcSys n :=
  { rowExists := false, rowUuid := none, lockHeld := none, createCount := 0,
    pc := fun _ => .start }

/-! ### refreshRepo under concurrency (src/services/github/cache.ts) -/

/-- The `github_repo` row as the concurrent model sees it: the tri-state
`available` column, the fetch timestamp, and the joined details row
(payload opaque, modelled as `Nat`). -/
structure RepoRowM where
  available : Option Bool
  fetchedAt : Int
  details : Option Nat
deriving DecidableEq, Repr

/-- The placeholder row inserted by `refreshRepo` step 1. -/
def placeholderRow (now : Int) : RepoRowM :=
  { available := none, fetchedAt := now, details := none }

/-- The row after a successful fetch was committed:
`{available: true, fetchedAt: now}` plus the upserted details `v`. -/
def committedRow (now : Int) (v : Nat) : RepoRowM :=
  { available := some true, fetchedAt := now, details := some v }

/-- Program counter of one `refreshRepo` caller (`refreshRepo` has no
optimistic pre-check, so callers start at the placeholder insert).
`fallback` is the final joined read — which in this function is
`.for("update", { of: githubRepo })` WITHOUT `skipLocked`: a blocking
row lock. -/
inductive RProc
  | toInsert
  | toSelect
  | fallback
  | winner
  | committer (v : Nat)
  | done (ret : Option Nat)
deriving DecidableEq, Repr

/-- `true` on the two program points at which the caller's transaction
holds the row lock. -/
def RProc.holds : RProc → Bool
  | .winner => true
  | .committer _ => true
  | _ => false

/-- `true` on `committer _`. -/
def RProc.isCommitter : RProc → Bool
  | .committer _ => true
  | _ => false

/-- `true` on `done _`. -/
def RProc.isDone : RProc → Bool
  | .done _ => true
  | _ => false

/-- Shared state of N concurrent `refreshRepo` callers on one repo key.
All callers run at the same instant `now` with the same TTL and
`force = false`; the external fetch succeeds (the `"repo"` arm), its
payload is modelled by the caller index. -/
structure RepoSys (n : Nat) where
  row : Option RepoRowM
  lockHeld : Option (Fin n)
  fetchCount : Nat
  pc : Fin n → RProc

instance (n : Nat) : DecidableEq (RepoSys n) := fun a b =>
  decidable_of_iff
    (a.row = b.row ∧ a.lockHeld = b.lockHeld ∧
      a.fetchCount = b.fetchCount ∧ List.ofFn a.pc = List.ofFn b.pc)
    (by cases a; cases b; simp [List.ofFn_inj])

/-- The non-forced eligibility predicate of `refreshRepo`'s claim attempt
(`repoWhere` with `force = false`): `isNull(available)` or
`fetchedAt < now - TTL`. -/
def repoEligM (r : RepoRowM) (now ttl : Int) : Bool :=
  r.available == none || decide (r.fetchedAt < now - ttl)

/-- One atomic step of caller `i` in `refreshRepo`, `none` when `i` has
no enabled step.  Transcribed from src/services/github/cache.ts:
* `toInsert`: placeholder insert, on conflict do nothing;
* `toSelect`: claim attempt `FOR UPDATE SKIP LOCKED` under `repoEligM` —
  the row comes back only if eligible and unlocked;
* `winner`: await `getRepository` (successful, payload `i.val`);
* `committer v`: write `{available: true, fetchedAt: now}`, upsert the
  details row, commit (releasing the lock), return the fetched value;
* `fallback`: the final joined read `.for("update", { of: githubRepo })`
  — plain `FOR UPDATE`, so it WAITS while another transaction holds the
  row lock: the step is disabled (`none`) until the lock is free; it
  returns the details payload when the row is available, else `null`. -/
def repoStep {n : Nat} (now ttl : Int) (i : Fin n) (s : RepoSys n) :
    Option (RepoSys n) :=
  match s.pc i with
  | .toInsert =>
    some { s with row := some (match s.row with
                               | none => placeholderRow now
                               | some r => r)
                  pc := updFn s.pc i .toSelect }
  | .toSelect =>
    match s.row with
    | none => some { s with pc := updFn s.pc i .fallback }
    | some r =>
      if repoEligM r now ttl && s.lockHeld.isNone then
        some { s with lockHeld := some i, pc := updFn s.pc i .winner }
      else
        some { s with pc := updFn s.pc i .fallback }
  | .winner =>
    some { s with fetchCount := s.fetchCount + 1
                  pc := updFn s.pc i (.committer i.val) }
  | .committer v =>
    some { s with row := some (committedRow now v)
                  lockHeld := none
                  pc := updFn s.pc i (.done (some v)) }
  | .fallback =>
    if s.lockHeld.isNone then
      some { s with pc := updFn s.pc i
                      (.done (match s.row with
                              | none => none
                              | some r =>
                                if r.available == some true then r.details
                                else none)) }
    else none
  | .done _ => none

/-- Run a schedule of `refreshRepo` callers. -/
def repoRun {n : Nat} (now ttl : Int) : List (Fin n) → RepoSys n → Option (RepoSys n)
  | [], s => some s
  | i :: t, s =>
    match repoStep now ttl i s with
    | none => none
    | some s' => repoRun now ttl t s'

/-- The uninitialized key for `refreshRepo`. -/
def repoInit (n : Nat) : RepoSys n :=
  { row := none, lockHeld := none, fetchCount := 0, pc := fun _ => .toInsert }

/-! ### refreshInvocation under concurrency (src/services/chroma/cache.ts) -/

/-- The `chroma_sync_invocations` row for one (source, ref) natural key
as the concurrent model sees it: the locally chosen
`target_collection_name` (collection names modelled as `Nat`) and the
externally assigned invocation uuid. -/
structure InvRowM where
  name : Nat
  uuid : Option Nat
deriving DecidableEq, Repr

/-- Program counter of one `refreshInvocation` caller (the source row is
assumed present with a uuid; callers start at the placeholder insert,
having each generated their own fresh `randomUUID()` collection name,
modelled as the caller index). -/
inductive IProc
  | toInsert
  | toSelect
  | fallback
  | winner
  | committer (id : Nat)
  | done (ret : Option InvRowM)
deriving DecidableEq, Repr

/-- `true` on `done _`. -/
def IProc.isDone : IProc → Bool
  | .done _ => true
  | _ => false

/-- Shared state of N concurrent `refreshInvocation` callers on one
(source, ref) key.  `created` records, in order, the
`target_collection_name` argument of every external `createInvocation`
call issued so far. -/
structure InvSys (n : Nat) where
  row : Option InvRowM
  lockHeld : Option (Fin n)
  created : List Nat
  pc : Fin n → IProc

instance (n : Nat) : DecidableEq (InvSys n) := fun a b =>
  decidable_of_iff
    (a.row = b.row ∧ a.lockHeld = b.lockHeld ∧
      a.created = b.created ∧ List.ofFn a.pc = List.ofFn b.pc)
    (by cases a; cases b; simp [List.ofFn_inj])

/-- One atomic step of caller `i` in `refreshInvocation`, `none` when `i`
has no enabled step.  Transcribed from src/services/chroma/cache.ts:
* `toInsert`: placeholder insert `{sourceUuid, refIdentifier,
  targetCollectionName: collectionName, uuid: null, status: "pending"}`
  on conflict do nothing — caller `i`'s freshly generated collection
  name is `i.val`, but it survives only if the insert wins the race;
* `toSelect`: claim attempt `FOR UPDATE SKIP LOCKED` with
  `isNull(uuid)`;
* `winner`: await
  `createInvocation(sourceUuid, commitSha, res[0].invocation.targetCollectionName)`
  — NOTE the name passed is the one STORED in the claimed row, not the
  caller's own fresh name; the external invocation id is `n + i.val`;
* `committer id`: write `{uuid: id, fetchedAt: now}` + commit, return
  the updated row;
* `fallback`: the final read for the natural key with `.for("update")`
  (no `skipLocked`): a blocking `FOR UPDATE` read, disabled while the
  lock is held. -/
def invStep {n : Nat} (i : Fin n) (s : InvSys n) : Option (InvSys n) :=
  match s.pc i with
  | .toInsert =>
    some { s with row := some (match s.row with
                               | none => { name := i.val, uuid := none }
                               | some r => r)
                  pc := updFn s.pc i .toSelect }
  | .toSelect =>
    match s.row with
    | none => some { s with pc := updFn s.pc i .fallback }
    | some r =>
      if r.uuid.isNone && s.lockHeld.isNone then
        some { s with lockHeld := some i, pc := updFn s.pc i .winner }
      else
        some { s with pc := updFn s.pc i .fallback }
  | .winner =>
    match s.row with
    | none => none
    | some r =>
      some { s with created := s.created ++ [r.name]
                    pc := updFn s.pc i (.committer (n + i.val)) }
  | .committer id =>
    match s.row with
    | none => none
    | some r =>
      some { s with row := some { r with uuid := some id }
                    lockHeld := none
                    pc := updFn s.pc i (.done (some { r with uuid := some id })) }
  | .fallback =>
    if s.lockHeld.isNone then
      some { s with pc := updFn s.pc i (.done s.row) }
    else none
  | .done _ => none

/-- Run a schedule of `refreshInvocation` callers. -/
def invRun {n : Nat} : List (Fin n) → InvSys n → Option (InvSys n)
  | [], s => some s
  | i :: t, s =>
    match invStep i s with
    | none => none
    | some s' => invRun t s'

/-- The uninitialized (source, ref) key for `refreshInvocation`. -/
def invInit (n : Nat) : InvSys n :=
  { row := none, lockHeld := none, created := [], pc := fun _ => .toInsert }

/-! ### Inductive invariants of the three systems -/

/-- Inductive invariant of the `refreshSource` system. -/
structure SrcInv (n : Nat) (s : SrcSys n) : Prop where
  lock_iff : ∀ i, (s.lockHeld = some i) ↔ (s.pc i).holds = true
  row_uuid_none : s.rowExists = false → s.rowUuid = none
  row_none_pcs : s.rowExists = false → ∀ i, s.pc i = .start ∨ s.pc i = .toInsert
  holds_state : ∀ i, (s.pc i).holds = true → s.rowUuid = none ∧ s.rowExists = true
  count_eq : s.createCount =
      (if ∃ i, (s.pc i).isCommitter = true then 1 else 0) +
      (if s.rowUuid = none then 0 else 1)
  done_ret : ∀ i r, s.pc i = .done r →
      r = some none ∨ ∃ u, r = some (some u) ∧ s.rowUuid = some u
  null_done_lock : ∀ i, s.rowUuid = none →
      (s.pc i = .fallback ∨ (s.pc i).isDone = true) → s.lockHeld.isSome = true

/-- Inductive invariant of the `refreshRepo` system (for `0 ≤ ttl`). -/
structure RepoInv (n : Nat) (now : Int) (s : RepoSys n) : Prop where
  lock_iff : ∀ i, (s.lockHeld = some i) ↔ (s.pc i).holds = true
  row_forms : s.row = none ∨ s.row = some (placeholderRow now) ∨
      ∃ v, s.row = some (committedRow now v)
  row_some : ∀ i, s.pc i ≠ .toInsert → s.row ≠ none
  holds_state : ∀ i, (s.pc i).holds = true → s.row = some (placeholderRow now)
  count_eq : s.fetchCount =
      (if ∃ i, (s.pc i).isCommitter = true then 1 else 0) +
      (if s.row.bind (fun r => r.available) = some true then 1 else 0)
  done_ret : ∀ i r, s.pc i = .done r →
      ∃ v, r = some v ∧ s.row = some (committedRow now v)
  fallback_free_committed : ∀ i, s.pc i = .fallback → s.lockHeld = none →
      ∃ v, s.row = some (committedRow now v)

/-- Inductive invariant of the `refreshInvocation` system for the
collection-name claim: once a row exists its stored name never changes,
and every external `createInvocation` call so far used that name. -/
structure InvNameInv (n : Nat) (s : InvSys n) : Prop where
  row_none_created : s.row = none → s.created = []
  created_name : ∀ r, s.row = some r → ∀ c ∈ s.created, c = r.name

/-! ### Concrete schedules and states used by the witnesses -/

/-- A 2-caller `refreshSource` schedule: caller 0 runs to completion,
then caller 1's optimistic check hits. -/
def srcDemoTrace : List (Fin 2) := [0, 0, 0, 0, 0, 1]

/-- The final state of `srcDemoTrace`: one create call, uuid `0`
registered, both callers returned the registered row. -/
def srcDemoFinal : SrcSys 2 :=
  { rowExists := true, rowUuid := some 0, lockHeld := none, createCount := 1,
    pc := fun _ => .done (some (some 0)) }

/-- A 2-caller `refreshRepo` schedule at `now = 0`: both insert, caller 0
wins the claim, caller 1 loses and must wait at its blocking fallback
read until caller 0 commits, then reads the committed value. -/
def repoDemoTrace : List (Fin 2) := [0, 1, 0, 1, 0, 0, 1]

/-- The final state of `repoDemoTrace`: one external fetch, both callers
returned the freshly committed payload `0`. -/
def repoDemoFinal : RepoSys 2 :=
  { row := some (committedRow 0 0), lockHeld := none, fetchCount := 1,
    pc := fun _ => .done (some 0) }

/-- The prefix of `repoDemoTrace` stopping while caller 0 (the claim
winner) still holds the row lock with its external fetch in flight and
caller 1 sits at the fallback read. -/
def repoCexTrace : List (Fin 2) := [0, 1, 0, 1]

/-- The state reached by `repoCexTrace`: caller 1's fallback read is
issued against a row locked by caller 0's still-running transaction. -/
def repoCexState : RepoSys 2 :=
  { row := some (placeholderRow 0), lockHeld := some 0, fetchCount := 0,
    pc := fun j => if j = 0 then .winner else .fallback }

/-- A 2-caller `refreshInvocation` schedule: caller 1 inserts the
placeholder first (its generated collection name, `1`, is stored);
caller 0's insert is a conflict no-op; caller 0 then wins the claim and
issues the external create call. -/
def invDemoTrace : List (Fin 2) := [1, 0, 0, 0]

/-- The state reached by `invDemoTrace`: the one `createInvocation` call
was made with collection name `1` — the name stored in the placeholder
row that won the insert race — although the calling process generated
the fresh name `0`. -/
def invDemoFinal : InvSys 2 :=
  { row := some { name := 1, uuid := none }, lockHeld := some 0,
    created := [1], pc := fun j => if j = 0 then .committer 2 else .toSelect }

/-- Snapshot used by the snapshot-response contrast: an available repo
whose invocation is non-terminal and stale, with no commit indexed yet. -/
def c10State : CurrentState :=
  { repo := some { name := "o/r", available := some true, fetchedAt := 0 }
    repoDetails := none
    state := some { latestCommitSha := some "sha1",
                    latestProcessedCommitSha := none, fetchedAt := 0 }
    latestCommit := none
    latestProcessedCommit := none
    tree := none
    source := none
    invocation := some { id := 1, sourceUuid := "su", refIdentifier := "sha1",
                         targetCollectionName := "col", uuid := some "iu",
                         status := some .processing, createdAt := 0,
                         fetchedAt := 0 } }

/-- Database slice matching `c10State` at the start of the GET tail. -/
def c10Db : RouteDb :=
  { stateRow := some { latestCommitSha := some "sha1",
                       latestProcessedCommitSha := none, fetchedAt := 0 }
    invRow := some { id := 1, sourceUuid := "su", refIdentifier := "sha1",
                     targetCollectionName := "col", uuid := some "iu",
                     status := some .processing, createdAt := 0,
                     fetchedAt := 0 } }

/-- Decidable guard for the C8 well-formedness side condition: the
stored `latestProcessedCommitSha` is never the empty string (SQL either
stores NULL or a real 40-hex sha; JS truthiness and `Option` absence
then coincide). -/
def lpcsNonEmpty : Option RepoStateRow → Bool
  | none => true
  | some s => s.latestProcessedCommitSha != some ""


/-- A fully indexed snapshot used by the C8 witness. -/
def c8Demo : CurrentState :=
  { repo := some { name := "o/r", available := some true, fetchedAt := 0 }
    repoDetails := none
    state := some { latestCommitSha := some "abc",
                    latestProcessedCommitSha := some "abc", fetchedAt := 0 }
    latestCommit := none
    latestProcessedCommit := none
    tree := none
    source := none
    invocation := none }

/-- Commit row backing the C6 counterexample database. -/
def c6Commit : CommitRow :=
  { sha := "aaa", repoName := "o/r", treeSha := "t", message := "m",
    authorName := some "a", authorDate := some 0, htmlUrl := "u", fetchedAt := 0 }

/-- C6 counterexample database: a state row last fetched at time 0
whose branch head was `"aaa"`. -/
def c6Db : CommitDb :=
  { stateRow := some { latestCommitSha := some "aaa",
                       latestProcessedCommitSha := none, fetchedAt := 0 }
    commits := [("aaa", c6Commit)] }

/-- The C1 invocation row: registered upstream, still `processing`,
stale enough for the status refresh to be awaited. -/
def c1Inv : InvRow :=
  { id := 7, sourceUuid := "su", refIdentifier := "deadbeef",
    targetCollectionName := "col", uuid := some "iu",
    status := some .processing, createdAt := 0, fetchedAt := 0 }

/-- The C1 repository state row before the advance: nothing indexed yet. -/
def c1State : RepoStateRow :=
  { latestCommitSha := some "deadbeef", latestProcessedCommitSha := none,
    fetchedAt := 0 }

/-- The state reached by schedule `[0, 1, 0, 1, 0, 0]` of the 2-caller
`refreshRepo` system: the winner committed and returned; the loser is
still parked at its fallback read, which is now unblocked. -/
def repoWaitState : RepoSys 2 :=
  { row := some (committedRow 0 0), lockHeld := none, fetchCount := 1,
    pc := fun j => if j = 0 then .done (some 0) else .fallback }


/-- The C1 invocation after completion, used by the C5 witness. -/
def c5Inv : InvRow := { c1Inv with status := some .completed }

/-- A snapshot holding `c5Inv`, used by the C5 witness. -/
def c5Snapshot : CurrentState :=
  { repo := none, repoDetails := none, state := none, latestCommit := none,
    latestProcessedCommit := none, tree := none, source := none,
    invocation := some c5Inv }


/-- An ineligible (fresh, already fetched) `github_repo` row for the C4
witness. -/
def c4RepoRow : RepoRow := { name := "o/r", available := some true, fetchedAt := 1000 }

/-- C4 witness database around `c4RepoRow`. -/
def c4RepoDb : RepoDb := { repoRow := some c4RepoRow, detailsRow := none }

/-- An ineligible (fresh, already fetched) `github_repo_state` row for
the C4 witness. -/
def c4StateRow : RepoStateRow :=
  { latestCommitSha := some "aaa", latestProcessedCommitSha := none, fetchedAt := 1000 }

/-- C4 witness database around `c4StateRow`. -/
def c4CommitDb : CommitDb := { stateRow := some c4StateRow, commits := [] }


/-- An eligible never-fetched `github_repo` row for the C7 witness. -/
def c7RepoRow : RepoRow := { name := "o/r", available := none, fetchedAt := 0 }

/-- C7 witness database around `c7RepoRow`. -/
def c7RepoDb : RepoDb := { repoRow := some c7RepoRow, detailsRow := none }

/-- A placeholder invocation row for the C7 witness. -/
def c7InvRow : InvRow :=
  { id := 3, sourceUuid := "su", refIdentifier := "sha",
    targetCollectionName := "colX", uuid := none, status := some .pending,
    createdAt := 0, fetchedAt := 0 }

/-- C7 witness database: registered source, placeholder invocation. -/
def c7InvDb : InvDb :=
  { source := some { id := 1, repoName := "o/r", uuid := some "su", createdAt := 0 }
    inv := some c7InvRow }


/-- A never-fetched repo row for the C6 witness (repo kind caches the
negative result). -/
def c6NegRow : RepoRow := { name := "gone/repo", available := none, fetchedAt := 0 }

/-- C6 witness database around `c6NegRow`. -/
def c6NegDb : RepoDb := { repoRow := some c6NegRow, detailsRow := none }

/-- An unfetched tree row for the C6 witness (tree kind writes nothing
on NotFound). -/
def c6TreeRow : TreeRow := { treeSha := "t1", repoName := "o/r", tree := none, fetchedAt := 0 }

/-- C6 witness database around `c6TreeRow`. -/
def c6TreeDb : TreeDb := { treeRow := some c6TreeRow }

/-- A 2-caller `refreshSource` schedule in which caller 1 loses the
claim race and its lock-free fallback read runs while caller 0's
external `createSource` call is still in flight. -/
def srcCexTrace : List (Fin 2) := [0, 0, 0, 1, 1, 1, 1, 0, 0]

/-- The final state of `srcCexTrace`: one create call was made and uuid
`0` is registered, but caller 1 returned the placeholder row (null
`source_uuid`) it read before caller 0's commit. -/
def srcCexFinal : SrcSys 2 :=
  { rowExists := true, rowUuid := some 0, lockHeld := none, createCount := 1,
    pc := fun j => if j = 0 then .done (some (some 0)) else .done (some none) }

/-! ## Theorems -/

/-- `repoWhere` is exactly the claim's eligibility predicate: never
fetched, or forced, or age `now - fetchedAt` strictly exceeds the TTL. -/
theorem repoWhere_eq_claim (row : RepoRow) (now ttl : Int) (force : Bool) :
    repoWhere row now ttl force
      = (row.available == none || force || decide (now - row.fetchedAt > ttl)) := by
  have h : decide (row.fetchedAt < now - ttl) = decide (now - row.fetchedAt > ttl) :=
    decide_eq_decide.mpr (by omega)
  cases force <;> simp [repoWhere, h]

/-- `commitWhere` is exactly the claim's eligibility predicate for the
branch-head refresh. -/
theorem commitWhere_eq_claim (row : RepoStateRow) (now ttl : Int) (force : Bool) :
    commitWhere row now ttl force
      = (row.latestCommitSha == none || force || decide (now - row.fetchedAt > ttl)) := by
  have h : decide (row.fetchedAt < now - ttl) = decide (now - row.fetchedAt > ttl) :=
    decide_eq_decide.mpr (by omega)
  cases force <;> simp [commitWhere, h]

/-- C8: for every aggregated status response, the readiness status is
derived from `RepositoryState` exactly as the spec states: `processing`
when no commit has been fully indexed yet (`latestProcessedCommitSha`
absent), `up_to_date` when the latest known commit SHA equals the latest
fully-indexed commit SHA, and `out_of_date` in every other case.  The
side condition `lpcsNonEmpty` rules out an empty-string sha, on which JS
truthiness (`!state.state.latestProcessedCommitSha`) and `Option`
absence would part ways. -/
theorem sync_status_derivation :
    ∀ st : CurrentState, lpcsNonEmpty st.state = true →
      (formatResponse st).sync_status = syncStatusSpec st.state := by
  intro st h
  cases hs : st.state with
  | none => simp [formatResponse, syncStatusSpec, hs]
  | some s =>
    cases hp : s.latestProcessedCommitSha with
    | none => simp [formatResponse, syncStatusSpec, hs, hp, jsFalsy]
    | some p =>
      have hp' : ¬(p = "") := by
        rw [hs] at h
        simp [lpcsNonEmpty, hp] at h
        exact h
      simp [formatResponse, syncStatusSpec, hs, hp, jsFalsy, hp']

/-- Witness for C8 at a concrete fully indexed snapshot. -/
theorem sync_status_derivation_witness :
    lpcsNonEmpty c8Demo.state = true ∧
      (formatResponse c8Demo).sync_status = syncStatusSpec c8Demo.state :=
  ⟨by decide, sync_status_derivation c8Demo (by decide)⟩

/-- C5: once an `IndexInvocation` is terminal (`completed`, `failed` or
`cancelled`), a (non-forced, as at every call site) invocation-status
refresh never issues the external status fetch, for every TTL and every
current time: the coordinator short-circuits, leaves the database
untouched and returns the invocation unchanged; and the status route's
`needsRefresh.invocationStatus` guard is `false` for it as well. -/
theorem terminal_status_never_refetched :
    ∀ (db : Option InvRow) (inv : InvRow) (now ttl : Int) (fetch : StatusFetch),
      isTerminalStatus inv.status = true →
      ((refreshInvocationStatusRun db inv now ttl false fetch).fetchIssued = false ∧
       (refreshInvocationStatusRun db inv now ttl false fetch).dbInv = db ∧
       (inv.uuid ≠ none →
         (refreshInvocationStatusRun db inv now ttl false fetch).result = some inv)) ∧
      (∀ st : CurrentState, st.invocation = some inv →
        needsInvocationStatusRefresh st now = false) := by
  intro db inv now ttl fetch hterm
  constructor
  · by_cases hu : inv.uuid = none
    · simp [refreshInvocationStatusRun, hu]
    · simp [refreshInvocationStatusRun, hu, hterm]
  · intro st hst
    simp [needsInvocationStatusRefresh, hst, hterm]


/-- Witness for C5: a completed invocation, long after its status TTL. -/
theorem terminal_status_never_refetched_witness :
    (refreshInvocationStatusRun (some c5Inv) c5Inv 1000000
        STATUS_UPDATE_THRESHOLD_MS false (.ok .processing)).fetchIssued = false ∧
    (refreshInvocationStatusRun (some c5Inv) c5Inv 1000000
        STATUS_UPDATE_THRESHOLD_MS false (.ok .processing)).result = some c5Inv ∧
    needsInvocationStatusRefresh c5Snapshot 1000000 = false :=
  ⟨(terminal_status_never_refetched (some c5Inv) c5Inv 1000000
      STATUS_UPDATE_THRESHOLD_MS (.ok .processing) (by decide)).1.1,
   (terminal_status_never_refetched (some c5Inv) c5Inv 1000000
      STATUS_UPDATE_THRESHOLD_MS (.ok .processing) (by decide)).1.2.2 (by decide),
   (terminal_status_never_refetched (some c5Inv) c5Inv 1000000
      STATUS_UPDATE_THRESHOLD_MS (.ok .processing) (by decide)).2 c5Snapshot (by decide)⟩

/-- C4: for every refresh call (`refreshRepo` and `refreshCommit`, the
cited instantiations), the external fetch is performed exactly when the
row is eligible — never fetched (`available` / `latestCommitSha` null),
or `force`, or `now - fetchedAt > TTL`; on an ineligible row the stored
value is returned through the fallback read, the database is unchanged
and no external fetch occurs. -/
theorem fetch_only_when_eligible :
    (∀ (repoName : String) (db : RepoDb) (row : RepoRow) (now ttl : Int)
        (force : Bool) (fetch : RepoFetch), db.repoRow = some row →
      ((refreshRepoRun repoName db now ttl force fetch).fetchIssued
          = (row.available == none || force || decide (now - row.fetchedAt > ttl))) ∧
      ((row.available == none || force || decide (now - row.fetchedAt > ttl)) = false →
        (refreshRepoRun repoName db now ttl force fetch).db = db ∧
        (refreshRepoRun repoName db now ttl force fetch).result = repoFallbackRead db ∧
        (refreshRepoRun repoName db now ttl force fetch).fetchIssued = false)) ∧
    (∀ (repoName : String) (db : CommitDb) (row : RepoStateRow) (now ttl : Int)
        (force : Bool) (fetch : CommitFetch), db.stateRow = some row →
      ((refreshCommitRun repoName db now ttl force fetch).fetchIssued
          = (row.latestCommitSha == none || force || decide (now - row.fetchedAt > ttl))) ∧
      ((row.latestCommitSha == none || force || decide (now - row.fetchedAt > ttl)) = false →
        (refreshCommitRun repoName db now ttl force fetch).db = db ∧
        (refreshCommitRun repoName db now ttl force fetch).result = commitFallbackRead db ∧
        (refreshCommitRun repoName db now ttl force fetch).fetchIssued = false)) := by
  constructor
  · intro repoName db row now ttl force fetch hdb
    rw [← repoWhere_eq_claim]
    by_cases hW : repoWhere row now ttl force = true
    · cases fetch <;> simp [refreshRepoRun, hdb, hW]
    · rw [Bool.not_eq_true] at hW
      simp [refreshRepoRun, hdb, hW]
  · intro repoName db row now ttl force fetch hdb
    rw [← commitWhere_eq_claim]
    by_cases hW : commitWhere row now ttl force = true
    · cases fetch <;> simp [refreshCommitRun, hdb, hW]
    · rw [Bool.not_eq_true] at hW
      simp [refreshCommitRun, hdb, hW]

/-- Witness for C4: at time 2000 a row fetched at 1000 is not eligible
under either TTL, so no fetch is issued and the stored value is served. -/
theorem fetch_only_when_eligible_witness :
    (refreshRepoRun "o/r" c4RepoDb 2000 ONE_MONTH_MS false .error).fetchIssued = false ∧
    (refreshRepoRun "o/r" c4RepoDb 2000 ONE_MONTH_MS false .error).db = c4RepoDb ∧
    (refreshCommitRun "o/r" c4CommitDb 2000 ONE_DAY_MS false .notFound).fetchIssued = false ∧
    (refreshCommitRun "o/r" c4CommitDb 2000 ONE_DAY_MS false .notFound).result
      = commitFallbackRead c4CommitDb :=
  ⟨((fetch_only_when_eligible.1 "o/r" c4RepoDb c4RepoRow 2000 ONE_MONTH_MS false
      .error rfl).1).trans (by decide),
   ((fetch_only_when_eligible.1 "o/r" c4RepoDb c4RepoRow 2000 ONE_MONTH_MS false
      .error rfl).2 (by decide)).1,
   ((fetch_only_when_eligible.2 "o/r" c4CommitDb c4StateRow 2000 ONE_DAY_MS false
      .notFound rfl).1).trans (by decide),
   ((fetch_only_when_eligible.2 "o/r" c4CommitDb c4StateRow 2000 ONE_DAY_MS false
      .notFound rfl).2 (by decide)).2.1⟩

/-- C7: when the external fetch throws, the enclosing transaction aborts
and the row is left exactly as before the attempt (for `refreshRepo` the
whole database slice, fetch timestamp included, is unchanged and the
exception propagates whenever the fetch was attempted), so eligibility
is preserved at every later time and a future caller retries; likewise a
throwing `createInvocation` inside `refreshInvocation` leaves the
invocation row untouched. -/
theorem fetch_exception_leaves_row_unchanged :
    (∀ (repoName : String) (db : RepoDb) (row : RepoRow) (now ttl : Int)
        (force : Bool), db.repoRow = some row →
      (refreshRepoRun repoName db now ttl force .thrown).db = db ∧
      ((refreshRepoRun repoName db now ttl force .thrown).fetchIssued = true →
        (refreshRepoRun repoName db now ttl force .thrown).threw = true) ∧
      (∀ now', now ≤ now' → repoWhere row now ttl force = true →
        repoWhere row now' ttl force = true)) ∧
    (∀ (db : InvDb) (row : InvRow) (commitSha freshName : String)
        (newId : Nat) (now : Int), db.inv = some row →
      (refreshInvocationRun db commitSha freshName newId now .thrown).db = db ∧
      ((refreshInvocationRun db commitSha freshName newId now .thrown).createIssued = true →
        (refreshInvocationRun db commitSha freshName newId now .thrown).threw = true)) := by
  constructor
  · intro repoName db row now ttl force hdb
    refine ⟨?_, ?_, ?_⟩
    · by_cases hW : repoWhere row now ttl force = true
      · simp [refreshRepoRun, hdb, hW]
      · rw [Bool.not_eq_true] at hW
        simp [refreshRepoRun, hdb, hW]
    · by_cases hW : repoWhere row now ttl force = true
      · simp [refreshRepoRun, hdb, hW]
      · rw [Bool.not_eq_true] at hW
        simp [refreshRepoRun, hdb, hW]
    · intro now' hle hW
      rw [repoWhere_eq_claim] at hW ⊢
      simp only [Bool.or_eq_true, decide_eq_true_eq] at hW ⊢
      rcases hW with (h | h) | h
      · exact Or.inl (Or.inl h)
      · exact Or.inl (Or.inr h)
      · exact Or.inr (by omega)
  · intro db row commitSha freshName newId now hdb
    cases hsrc : db.source with
    | none => simp [refreshInvocationRun, hsrc]
    | some src =>
      cases hu : src.uuid with
      | none => simp [refreshInvocationRun, hsrc, hu]
      | some su =>
        by_cases hru : row.uuid = none
        · simp [refreshInvocationRun, hsrc, hu, hdb, hru]
        · simp [refreshInvocationRun, hsrc, hu, hdb, hru]

/-- Witness for C7: a throwing fetch on an eligible row leaves the
database untouched, the exception propagates, and the row is still
eligible at a later time. -/
theorem fetch_exception_leaves_row_unchanged_witness :
    (refreshRepoRun "o/r" c7RepoDb 5000 ONE_MONTH_MS false .thrown).db = c7RepoDb ∧
    (refreshRepoRun "o/r" c7RepoDb 5000 ONE_MONTH_MS false .thrown).threw = true ∧
    repoWhere c7RepoRow 6000 ONE_MONTH_MS false = true ∧
    (refreshInvocationRun c7InvDb "sha" "fresh" 9 5000 .thrown).db = c7InvDb :=
  ⟨(fetch_exception_leaves_row_unchanged.1 "o/r" c7RepoDb c7RepoRow 5000
      ONE_MONTH_MS false rfl).1,
   (fetch_exception_leaves_row_unchanged.1 "o/r" c7RepoDb c7RepoRow 5000
      ONE_MONTH_MS false rfl).2.1 (by decide),
   (fetch_exception_leaves_row_unchanged.1 "o/r" c7RepoDb c7RepoRow 5000
      ONE_MONTH_MS false rfl).2.2 6000 (by decide) (by decide),
   (fetch_exception_leaves_row_unchanged.2 c7InvDb c7InvRow "sha" "fresh" 9
      5000 rfl).1⟩

/-- C6 counterexample: the claim says a NotFound result is cached as
fetched-negative with the fetch timestamp updated for every resource
kind that can be NotFound — repository, branch head commit, tree.  For
the branch-head-commit kind this is false: at time 90000000 (past the
one-day TTL of a row fetched at 0) a 404 from `getBranchCommit` makes
the transaction return `null` with NO write at all — the database is
bit-for-bit unchanged, the fetch timestamp stays 0, and the row is
still eligible one millisecond later, so the key IS retried before the
TTL elapses. -/
theorem commit_notfound_not_cached_cex :
    (refreshCommitRun "o/r" c6Db 90000000 ONE_DAY_MS false .notFound).fetchIssued = true ∧
    (refreshCommitRun "o/r" c6Db 90000000 ONE_DAY_MS false .notFound).db = c6Db ∧
    ((refreshCommitRun "o/r" c6Db 90000000 ONE_DAY_MS false .notFound).db.stateRow.map
        (fun s => s.fetchedAt)) = some 0 ∧
    commitWhere { latestCommitSha := some "aaa", latestProcessedCommitSha := none,
                  fetchedAt := 0 } 90000001 ONE_DAY_MS false = true := by decide

/-- C6 amended: upstream-confirmed absence is cached as fetched-negative
with the timestamp updated — making the key ineligible until the TTL
elapses — for the REPOSITORY kind only (`refreshRepo`'s `"error"` arm
covers both NotFound and Inaccessible); for the branch-head-commit and
tree kinds a NotFound performs no write: the row, its fetch timestamp
included, is left unchanged and remains eligible for immediate retry. -/
theorem notfound_caching_by_kind :
    (∀ (repoName : String) (db : RepoDb) (row : RepoRow) (now ttl : Int),
      db.repoRow = some row → repoWhere row now ttl false = true →
      (refreshRepoRun repoName db now ttl false .error).db.repoRow
          = some { row with available := some false, fetchedAt := now } ∧
      (refreshRepoRun repoName db now ttl false .error).fetchIssued = true ∧
      (∀ now', now' - now ≤ ttl →
        repoWhere { row with available := some false, fetchedAt := now }
          now' ttl false = false)) ∧
    (∀ (repoName : String) (db : CommitDb) (row : RepoStateRow) (now ttl : Int)
        (force : Bool), db.stateRow = some row →
      (refreshCommitRun repoName db now ttl force .notFound).db = db) ∧
    (∀ (repoName treeSha : String) (db : TreeDb) (row : TreeRow) (now ttl : Int)
        (force : Bool), db.treeRow = some row →
      (refreshTreeRun repoName treeSha db now ttl force .notFound).db = db) := by
  refine ⟨?_, ?_, ?_⟩
  · intro repoName db row now ttl hdb hW
    refine ⟨?_, ?_, ?_⟩
    · simp [refreshRepoRun, hdb, hW]
    · simp [refreshRepoRun, hdb, hW]
    · intro now' hle
      simp only [repoWhere, if_neg Bool.false_ne_true, Bool.false_eq_true, if_false]
      simp only [Bool.or_eq_false_iff, decide_eq_false_iff_not]
      exact ⟨by simp, by omega⟩
  · intro repoName db row now ttl force hdb
    by_cases hW : commitWhere row now ttl force = true
    · simp [refreshCommitRun, hdb, hW]
    · rw [Bool.not_eq_true] at hW
      simp [refreshCommitRun, hdb, hW]
  · intro repoName treeSha db row now ttl force hdb
    by_cases hW : treeWhere row now ttl force = true
    · simp [refreshTreeRun, hdb, hW]
    · rw [Bool.not_eq_true] at hW
      simp [refreshTreeRun, hdb, hW]

/-- Witness for the amended C6 at concrete rows of all three kinds. -/
theorem notfound_caching_by_kind_witness :
    (refreshRepoRun "gone/repo" c6NegDb 5000 ONE_MONTH_MS false .error).db.repoRow
        = some { c6NegRow with available := some false, fetchedAt := 5000 } ∧
    repoWhere { c6NegRow with available := some false, fetchedAt := 5000 }
        6000 ONE_MONTH_MS false = false ∧
    (refreshCommitRun "o/r" c6Db 90000000 ONE_DAY_MS false .notFound).db = c6Db ∧
    (refreshTreeRun "o/r" "t1" c6TreeDb 5000 ONE_DAY_MS false .notFound).db = c6TreeDb :=
  ⟨(notfound_caching_by_kind.1 "gone/repo" c6NegDb c6NegRow 5000 ONE_MONTH_MS
      rfl (by decide)).1,
   (notfound_caching_by_kind.1 "gone/repo" c6NegDb c6NegRow 5000 ONE_MONTH_MS
      rfl (by decide)).2.2 6000 (by decide),
   notfound_caching_by_kind.2.1 "o/r" c6Db
      { latestCommitSha := some "aaa", latestProcessedCommitSha := none, fetchedAt := 0 }
      90000000 ONE_DAY_MS false rfl,
   notfound_caching_by_kind.2.2 "o/r" "t1" c6TreeDb c6TreeRow 5000 ONE_DAY_MS false rfl⟩

/-- C1 (code bug): the status route advances
`RepositoryState.latestProcessedCommitSha` on EVERY terminal status, not
only on `completed`.  Concretely: for the registered, still-`processing`
invocation `c1Inv` whose status fetch comes back `failed`, the awaited
`refreshInvocationStatus` returns the row with status `failed`, the
route's advance guard (`updated?.status && isTerminalStatus(updated?.status)`)
fires, and `latestProcessedCommitSha` is set to the failed invocation's
ref — although `failed ≠ completed`, the schema documents the column as
"Latest commit that has a completed invocation", and the chat route
rejects a `latestProcessedCommitSha` whose invocation is not completed. -/
theorem latestProcessed_advances_on_failed :
    (refreshInvocationStatusRun (some c1Inv) c1Inv 5000 STATUS_UPDATE_THRESHOLD_MS
        false (.ok .failed)).result
      = some { c1Inv with status := some .failed, fetchedAt := 5000 } ∧
    isTerminalStatus (some .failed) = true ∧
    advanceLatestProcessed (some c1State)
        (refreshInvocationStatusRun (some c1Inv) c1Inv 5000 STATUS_UPDATE_THRESHOLD_MS
          false (.ok .failed)).result
      = some { c1State with latestProcessedCommitSha := some "deadbeef" } ∧
    some InvStatus.failed ≠ some InvStatus.completed := by decide

/-- C10: the GET tail's response is computed entirely from the
`CurrentState` snapshot taken before the refreshes are triggered: for
EVERY database state, snapshot, background-refresh effect and awaited
status-fetch outcome, a produced response equals `formatResponse` of the
snapshot.  The second half exhibits the contrast at `c10State`: the
awaited invocation-status refresh comes back `completed` and the handler
writes `latestProcessedCommitSha := "sha1"` to the database, yet the
response of that same request still reports `processing` — the write is
visible only to later polls. -/
theorem response_computed_from_snapshot :
    (∀ (db0 : RouteDb) (st : CurrentState) (now : Int)
        (fCommit fTree fSource fInv : RouteDb → RouteDb) (sf : StatusFetch)
        (r : StatusResponse),
      (getStatusTail db0 st now fCommit fTree fSource fInv sf).response = some r →
      r = formatResponse st) ∧
    ((getStatusTail c10Db c10State 5000 id id id id (.ok .completed)).db.stateRow
        = some { latestCommitSha := some "sha1", latestProcessedCommitSha := some "sha1",
                 fetchedAt := 0 } ∧
     (getStatusTail c10Db c10State 5000 id id id id (.ok .completed)).response
        = some (formatResponse c10State) ∧
     (formatResponse c10State).sync_status = .processing) := by
  constructor
  · intro db0 st now fCommit fTree fSource fInv sf r h
    unfold getStatusTail at h
    cases hinv : st.invocation with
    | none =>
      rw [hinv] at h
      simp only [Option.some.injEq] at h
      exact h.symm
    | some inv =>
      rw [hinv] at h
      dsimp only at h
      by_cases hn : needsInvocationStatusRefresh st now = true
      · rw [if_pos hn] at h
        cases ht : (refreshInvocationStatusRun
            (backgroundRefreshes db0 st now fCommit fTree fSource fInv).invRow inv now
            STATUS_UPDATE_THRESHOLD_MS false sf).threw with
        | true => rw [if_pos ht] at h; exact absurd h (by simp)
        | false =>
          rw [if_neg (by rw [ht]; exact Bool.false_ne_true)] at h
          simp only [Option.some.injEq] at h
          exact h.symm
      · rw [if_neg hn] at h
        simp only [Option.some.injEq] at h
        exact h.symm
  · refine ⟨by decide, by decide, by decide⟩

/-- Witness for C10: the concrete response produced for `c10State`
(still `processing`) is exactly `formatResponse` of the snapshot, even
though the same request advanced `latestProcessedCommitSha`. -/
theorem response_computed_from_snapshot_witness :
    ({ existsFlag := true, sync_status := .processing, is_private := false,
       repo_info := none, latest_commit := none, latest_processed_commit := none,
       tree := none } : StatusResponse) = formatResponse c10State :=
  response_computed_from_snapshot.1 c10Db c10State 5000 id id id id (.ok .completed)
    _ (by decide)

/-- One step of the `refreshInvocation` system preserves `InvNameInv`. -/
theorem invStep_name_inv {n : Nat} (i : Fin n) (s s' : InvSys n)
    (hstep : invStep i s = some s') (hinv : InvNameInv n s) : InvNameInv n s' := by
  cases hpc : s.pc i with
  | toInsert =>
    cases hrow : s.row with
    | none =>
      simp only [invStep, hpc, hrow, Option.some.injEq] at hstep
      subst hstep
      exact ⟨fun hr => by simp at hr,
             fun r hr c hc => by
               simp only [Option.some.injEq] at hr
               rw [hinv.row_none_created hrow] at hc
               simp at hc⟩
    | some r0 =>
      simp only [invStep, hpc, hrow, Option.some.injEq] at hstep
      subst hstep
      exact ⟨fun hr => by simp at hr,
             fun r hr c hc => hinv.created_name r (hrow.trans (by simpa using hr)) c hc⟩
  | toSelect =>
    cases hrow : s.row with
    | none =>
      simp only [invStep, hpc, hrow, Option.some.injEq] at hstep
      subst hstep
      refine ⟨fun _ => hinv.row_none_created hrow, fun r hr => ?_⟩
      simp at hr
    | some r0 =>
      by_cases hg : (r0.uuid.isNone && s.lockHeld.isNone) = true
      · simp only [invStep, hpc, hrow, hg, if_pos, Option.some.injEq] at hstep
        subst hstep
        refine ⟨fun hr => ?_, fun r hr c hc => ?_⟩
        · simp at hr
        · exact hinv.created_name r (hrow.trans hr) c hc
      · simp only [invStep, hpc, hrow, hg, Bool.false_eq_true, if_false,
          Option.some.injEq] at hstep
        subst hstep
        refine ⟨fun hr => ?_, fun r hr c hc => ?_⟩
        · simp at hr
        · exact hinv.created_name r (hrow.trans hr) c hc
  | winner =>
    cases hrow : s.row with
    | none => simp [invStep, hpc, hrow] at hstep
    | some r0 =>
      simp only [invStep, hpc, hrow, Option.some.injEq] at hstep
      subst hstep
      refine ⟨fun hr => by simp at hr, fun r hr c hc => ?_⟩
      simp only [Option.some.injEq] at hr
      subst hr
      rcases List.mem_append.mp hc with hold | hnew
      · exact hinv.created_name r0 hrow c hold
      · simpa using hnew
  | committer id =>
    cases hrow : s.row with
    | none => simp [invStep, hpc, hrow] at hstep
    | some r0 =>
      simp only [invStep, hpc, hrow, Option.some.injEq] at hstep
      subst hstep
      refine ⟨fun hr => by simp at hr, fun r hr c hc => ?_⟩
      simp only [Option.some.injEq] at hr
      subst hr
      exact hinv.created_name r0 hrow c hc
  | fallback =>
    by_cases hg : s.lockHeld.isNone = true
    · simp only [invStep, hpc, hg, if_pos, Option.some.injEq] at hstep
      subst hstep
      exact ⟨fun hr => hinv.row_none_created hr, hinv.created_name⟩
    · simp [invStep, hpc, hg] at hstep
  | done ret =>
    simp [invStep, hpc] at hstep

/-- `InvNameInv` holds in every state reachable by a schedule. -/
theorem invRun_name_inv {n : Nat} : ∀ (t : List (Fin n)) (s0 s : InvSys n),
    InvNameInv n s0 → invRun t s0 = some s → InvNameInv n s := by
  intro t
  induction t with
  | nil =>
    intro s0 s h0 hrun
    simp only [invRun, Option.some.injEq] at hrun
    exact hrun ▸ h0
  | cons i t ih =>
    intro s0 s h0 hrun
    simp only [invRun] at hrun
    cases hstep : invStep i s0 with
    | none => rw [hstep] at hrun; exact absurd hrun (by simp)
    | some s1 =>
      rw [hstep] at hrun
      exact ih s1 s (invStep_name_inv i s0 s1 hstep h0) hrun

/-- C9: under any schedule of any number of concurrent
`refreshInvocation` callers — each generating its own fresh random
collection name — every external `createInvocation` call is made with
the `targetCollectionName` stored in the placeholder row that won the
insert race, so the collection name stored locally always equals every
name registered externally. -/
theorem invocation_collection_name_consistent :
    ∀ (n : Nat) (t : List (Fin n)) (s : InvSys n) (r : InvRowM),
      invRun t (invInit n) = some s → s.row = some r →
      ∀ c ∈ s.created, c = r.name := by
  intro n t s r hrun hrow
  have h0 : InvNameInv n (invInit n) :=
    ⟨fun _ => rfl, fun r' hr' => by simp [invInit] at hr'⟩
  exact (invRun_name_inv t (invInit n) s h0 hrun).created_name r hrow

/-- Witness for C9: after `invDemoTrace` (caller 1's placeholder with
name `1` won the insert race; caller 0 won the row lock and issued the
create call), the one recorded `createInvocation` call used name `1` —
the stored one, not creator 0's own fresh name `0`. -/
theorem invocation_collection_name_consistent_witness :
    invDemoFinal.created = [1] ∧
      (1 : Nat) = ({ name := 1, uuid := none } : InvRowM).name :=
  ⟨by decide,
   invocation_collection_name_consistent 2 invDemoTrace invDemoFinal
     { name := 1, uuid := none } (by decide) (by decide) 1 (by decide)⟩

theorem updFn_same {α : Type} {n : Nat} (f : Fin n → α) (i : Fin n) (v : α) :
    updFn f i v i = v := by simp [updFn]

theorem updFn_ne {α : Type} {n : Nat} {f : Fin n → α} {i j : Fin n} (v : α)
    (h : j ≠ i) : updFn f i v j = f j := by simp [updFn, h]

theorem committedRow_inj {now : Int} {v w : Nat}
    (h : committedRow now v = committedRow now w) : v = w := by
  have h2 := congrArg (fun r => r.details) h
  simpa [committedRow] using h2

/-- The placeholder row is always eligible (its `available` is null). -/
theorem eligM_placeholder (now ttl : Int) : repoEligM (placeholderRow now) now ttl = true := by
  simp [repoEligM, placeholderRow]

/-- A row committed at `now` is not eligible at `now` for `0 ≤ ttl`. -/
theorem eligM_committed (now ttl : Int) (httl : 0 ≤ ttl) (v : Nat) :
    repoEligM (committedRow now v) now ttl = false := by
  simp only [repoEligM, committedRow, Bool.or_eq_false_iff, decide_eq_false_iff_not]
  exact ⟨by simp, by omega⟩

/-- One step of the `refreshRepo` system preserves `RepoInv` (for a
nonnegative TTL). -/
theorem repoStep_inv {n : Nat} (now ttl : Int) (httl : 0 ≤ ttl) (i : Fin n)
    (s s' : RepoSys n) (hstep : repoStep now ttl i s = some s')
    (hinv : RepoInv n now s) : RepoInv n now s' := by
  cases hpc : s.pc i with
  | toInsert =>
    simp only [repoStep, hpc, Option.some.injEq] at hstep
    subst hstep
    have hnoti : s.lockHeld ≠ some i := fun h => by
      have := (hinv.lock_iff i).mp h
      rw [hpc] at this
      simp [RProc.holds] at this
    have hrow1 : ∀ r0, s.row = some r0 →
        (match s.row with | none => placeholderRow now | some r => r) = r0 := by
      intro r0 h0
      rw [h0]
    refine ⟨?_, ?_, ?_, ?_, ?_, ?_, ?_⟩ <;> dsimp only
    · intro j
      rcases eq_or_ne j i with rfl | hj
      · rw [updFn_same]
        simp only [RProc.holds]
        exact ⟨fun h => absurd h hnoti, fun h => by simp at h⟩
      · rw [updFn_ne _ hj]
        exact hinv.lock_iff j
    · rcases hinv.row_forms with h | h | ⟨v, h⟩
      · rw [h]; exact Or.inr (Or.inl rfl)
      · rw [h]; exact Or.inr (Or.inl rfl)
      · rw [h]; exact Or.inr (Or.inr ⟨v, rfl⟩)
    · intro j _
      cases hr : s.row <;> simp
    · intro j hj
      rcases eq_or_ne j i with rfl | hne
      · rw [updFn_same] at hj; simp [RProc.holds] at hj
      · rw [updFn_ne _ hne] at hj
        have h := hinv.holds_state j hj
        rw [h]
    · have hcomm : (∃ j, ((updFn s.pc i RProc.toSelect) j).isCommitter = true)
          ↔ (∃ j, ((s.pc j).isCommitter = true)) := by
        constructor
        · rintro ⟨j, hj⟩
          rcases eq_or_ne j i with rfl | hne
          · rw [updFn_same] at hj; simp [RProc.isCommitter] at hj
          · exact ⟨j, by rwa [updFn_ne _ hne] at hj⟩
        · rintro ⟨j, hj⟩
          rcases eq_or_ne j i with rfl | hne
          · rw [hpc] at hj; simp [RProc.isCommitter] at hj
          · exact ⟨j, by rwa [updFn_ne _ hne]⟩
      have havail : ((match s.row with
            | none => placeholderRow now
            | some r => r) : RepoRowM).available = (match s.row with
            | none => (none : Option Bool)
            | some r => r.available) := by
        cases s.row <;> simp [placeholderRow]
      have : (some (match s.row with
            | none => placeholderRow now
            | some r => r) : Option RepoRowM).bind (fun r => r.available)
          = s.row.bind (fun r => r.available) := by
        cases s.row <;> simp [placeholderRow]
      simp only [this, if_congr hcomm rfl rfl]
      exact hinv.count_eq
    · intro j r hj
      rcases eq_or_ne j i with rfl | hne
      · rw [updFn_same] at hj; simp at hj
      · rw [updFn_ne _ hne] at hj
        obtain ⟨v, hr, hrow⟩ := hinv.done_ret j r hj
        exact ⟨v, hr, by rw [hrow1 _ hrow]⟩
    · intro j hj hlock
      rcases eq_or_ne j i with rfl | hne
      · rw [updFn_same] at hj; simp at hj
      · rw [updFn_ne _ hne] at hj
        obtain ⟨v, hrow⟩ := hinv.fallback_free_committed j hj hlock
        exact ⟨v, by rw [hrow1 _ hrow]⟩
  | toSelect =>
    have hrowne : s.row ≠ none := hinv.row_some i (by rw [hpc]; nofun)
    cases hrow : s.row with
    | none => exact absurd hrow hrowne
    | some r0 =>
      by_cases hg : (repoEligM r0 now ttl && s.lockHeld.isNone) = true
      · simp only [repoStep, hpc, hrow, hg, if_pos, Option.some.injEq] at hstep
        subst hstep
        have hlockn : s.lockHeld = none := by
          rcases Bool.and_eq_true_iff.mp hg with ⟨_, h2⟩
          exact Option.isNone_iff_eq_none.mp h2
        have helig : repoEligM r0 now ttl = true :=
          (Bool.and_eq_true_iff.mp hg).1
        have hplace : s.row = some (placeholderRow now) := by
          rcases hinv.row_forms with h | h | ⟨v, h⟩
          · exact absurd h hrowne
          · exact h
          · rw [h] at hrow
            injection hrow with hr
            rw [← hr] at helig
            rw [eligM_committed now ttl httl v] at helig
            exact absurd helig (by simp)
        refine ⟨?_, ?_, ?_, ?_, ?_, ?_, ?_⟩ <;> dsimp only
        · intro j
          rcases eq_or_ne j i with rfl | hne
          · rw [updFn_same]
            simp [RProc.holds]
          · rw [updFn_ne _ hne]
            constructor
            · intro h; injection h with h; exact absurd h.symm hne
            · intro h
              have := (hinv.lock_iff j).mpr h
              rw [hlockn] at this; exact absurd this (by simp)
        · exact hrow ▸ hinv.row_forms
        · intro j _; exact hrow ▸ hrowne
        · intro j hj
          rcases eq_or_ne j i with rfl | hne
          · exact hrow ▸ hplace
          · rw [updFn_ne _ hne] at hj
            have := (hinv.lock_iff j).mpr hj
            rw [hlockn] at this; exact absurd this (by simp)
        · have hcomm1 : ¬∃ j, ((updFn s.pc i RProc.winner) j).isCommitter = true := by
            rintro ⟨j, hj⟩
            rcases eq_or_ne j i with rfl | hne
            · rw [updFn_same] at hj; simp [RProc.isCommitter] at hj
            · rw [updFn_ne _ hne] at hj
              have := (hinv.lock_iff j).mpr (by
                cases hpj : s.pc j <;> rw [hpj] at hj <;>
                  simp [RProc.isCommitter] at hj <;> simp [hpj, RProc.holds])
              rw [hlockn] at this; exact absurd this (by simp)
          have hcomm0 : ¬∃ j, ((s.pc j).isCommitter = true) := by
            rintro ⟨j, hj⟩
            have := (hinv.lock_iff j).mpr (by
              cases hpj : s.pc j <;> rw [hpj] at hj <;>
                simp [RProc.isCommitter] at hj <;> simp [hpj, RProc.holds])
            rw [hlockn] at this; exact absurd this (by simp)
          rw [if_neg hcomm1]
          have := hinv.count_eq
          rw [if_neg hcomm0] at this
          exact hrow ▸ this
        · intro j r hj
          rcases eq_or_ne j i with rfl | hne
          · rw [updFn_same] at hj; simp at hj
          · rw [updFn_ne _ hne] at hj
            exact hrow ▸ hinv.done_ret j r hj
        · intro j hj hlock
          simp at hlock
      · simp only [repoStep, hpc, hrow, hg, Bool.false_eq_true, if_false,
          Option.some.injEq] at hstep
        subst hstep
        have hnoti : s.lockHeld ≠ some i := fun h => by
          have := (hinv.lock_iff i).mp h
          rw [hpc] at this
          simp [RProc.holds] at this
        refine ⟨?_, ?_, ?_, ?_, ?_, ?_, ?_⟩ <;> dsimp only
        · intro j
          rcases eq_or_ne j i with rfl | hne
          · rw [updFn_same]
            simp only [RProc.holds]
            exact ⟨fun h => absurd h hnoti, fun h => by simp at h⟩
          · rw [updFn_ne _ hne]
            exact hinv.lock_iff j
        · exact hrow ▸ hinv.row_forms
        · intro j _; exact hrow ▸ hrowne
        · intro j hj
          rcases eq_or_ne j i with rfl | hne
          · rw [updFn_same] at hj; simp [RProc.holds] at hj
          · rw [updFn_ne _ hne] at hj
            exact hrow ▸ hinv.holds_state j hj
        · have hcomm : (∃ j, ((updFn s.pc i RProc.fallback) j).isCommitter = true)
              ↔ (∃ j, ((s.pc j).isCommitter = true)) := by
            constructor
            · rintro ⟨j, hj⟩
              rcases eq_or_ne j i with rfl | hne
              · rw [updFn_same] at hj; simp [RProc.isCommitter] at hj
              · exact ⟨j, by rwa [updFn_ne _ hne] at hj⟩
            · rintro ⟨j, hj⟩
              rcases eq_or_ne j i with rfl | hne
              · rw [hpc] at hj; simp [RProc.isCommitter] at hj
              · exact ⟨j, by rwa [updFn_ne _ hne]⟩
          rw [if_congr hcomm rfl rfl]
          exact hrow ▸ hinv.count_eq
        · intro j r hj
          rcases eq_or_ne j i with rfl | hne
          · rw [updFn_same] at hj; simp at hj
          · rw [updFn_ne _ hne] at hj
            exact hrow ▸ hinv.done_ret j r hj
        · intro j hj hlock
          rcases eq_or_ne j i with rfl | hne
          · have hex : s.lockHeld.isNone = true := by rw [hlock]; rfl
            have : repoEligM r0 now ttl = false := by
              cases he : repoEligM r0 now ttl
              · rfl
              · exact absurd (by rw [he, hex]; rfl) hg
            rcases hinv.row_forms with h | h | ⟨v, h⟩
            · exact absurd h hrowne
            · rw [h] at hrow
              injection hrow with hr
              rw [← hr, eligM_placeholder now ttl] at this
              exact absurd this (by simp)
            · exact ⟨v, hrow ▸ h⟩
          · rw [updFn_ne _ hne] at hj
            exact hrow ▸ hinv.fallback_free_committed j hj hlock
  | winner =>
    simp only [repoStep, hpc, Option.some.injEq] at hstep
    subst hstep
    have hlock : s.lockHeld = some i :=
      (hinv.lock_iff i).mpr (by rw [hpc]; rfl)
    have hplace : s.row = some (placeholderRow now) :=
      hinv.holds_state i (by rw [hpc]; rfl)
    refine ⟨?_, ?_, ?_, ?_, ?_, ?_, ?_⟩ <;> dsimp only
    · intro j
      rcases eq_or_ne j i with rfl | hne
      · rw [updFn_same, hlock]
        simp [RProc.holds]
      · rw [updFn_ne _ hne, hlock]
        constructor
        · intro h; injection h with h; exact absurd h.symm hne
        · intro h
          have := (hinv.lock_iff j).mpr h
          rw [hlock] at this
          injection this with h2; exact absurd h2.symm hne
    · exact hinv.row_forms
    · intro j _
      rw [hplace]; nofun
    · intro j hj
      rcases eq_or_ne j i with rfl | hne
      · exact hplace
      · rw [updFn_ne _ hne] at hj
        exact hinv.holds_state j hj
    · have hcomm0 : ¬∃ j, ((s.pc j).isCommitter = true) := by
        rintro ⟨j, hj⟩
        have := (hinv.lock_iff j).mpr (by
          cases hpj : s.pc j <;> rw [hpj] at hj <;>
            simp [RProc.isCommitter] at hj <;> simp [hpj, RProc.holds])
        rw [hlock] at this
        injection this with h2
        rw [← h2, hpc] at hj
        simp [RProc.isCommitter] at hj
      have hcomm1 : ∃ j, ((updFn s.pc i (RProc.committer i.val)) j).isCommitter = true :=
        ⟨i, by rw [updFn_same]; rfl⟩
      have havail : s.row.bind (fun r => r.available) ≠ some true := by
        rw [hplace]; simp [placeholderRow]
      have hc := hinv.count_eq
      rw [if_neg hcomm0, if_neg havail] at hc
      rw [if_pos hcomm1, if_neg havail]
      omega
    · intro j r hj
      rcases eq_or_ne j i with rfl | hne
      · rw [updFn_same] at hj; simp at hj
      · rw [updFn_ne _ hne] at hj
        exact hinv.done_ret j r hj
    · intro j hj hlock2
      rw [hlock] at hlock2
      exact absurd hlock2 (by simp)
  | committer v =>
    simp only [repoStep, hpc, Option.some.injEq] at hstep
    subst hstep
    have hlock : s.lockHeld = some i :=
      (hinv.lock_iff i).mpr (by rw [hpc]; rfl)
    have hplace : s.row = some (placeholderRow now) :=
      hinv.holds_state i (by rw [hpc]; rfl)
    have hnoholds : ∀ j, ((updFn s.pc i (RProc.done (some v))) j).holds ≠ true := by
      intro j hj
      rcases eq_or_ne j i with rfl | hne
      · rw [updFn_same] at hj; simp [RProc.holds] at hj
      · rw [updFn_ne _ hne] at hj
        have := (hinv.lock_iff j).mpr hj
        rw [hlock] at this
        injection this with h2; exact absurd h2.symm hne
    refine ⟨?_, ?_, ?_, ?_, ?_, ?_, ?_⟩ <;> dsimp only
    · intro j
      constructor
      · intro h; simp at h
      · intro h; exact absurd h (hnoholds j)
    · exact Or.inr (Or.inr ⟨v, rfl⟩)
    · intro j _; nofun
    · intro j hj
      exact absurd hj (hnoholds j)
    · have hcomm0 : ∃ j, ((s.pc j).isCommitter = true) := ⟨i, by rw [hpc]; rfl⟩
      have hcomm1 : ¬∃ j, ((updFn s.pc i (RProc.done (some v))) j).isCommitter = true := by
        rintro ⟨j, hj⟩
        rcases eq_or_ne j i with rfl | hne
        · rw [updFn_same] at hj; simp [RProc.isCommitter] at hj
        · rw [updFn_ne _ hne] at hj
          have := (hinv.lock_iff j).mpr (by
            cases hpj : s.pc j <;> rw [hpj] at hj <;>
              simp [RProc.isCommitter] at hj <;> simp [hpj, RProc.holds])
          rw [hlock] at this
          injection this with h2; exact absurd h2.symm hne
      have havail0 : s.row.bind (fun r => r.available) ≠ some true := by
        rw [hplace]; simp [placeholderRow]
      have havail1 : (some (committedRow now v) : Option RepoRowM).bind
          (fun r => r.available) = some true := by simp [committedRow]
      have hc := hinv.count_eq
      rw [if_pos hcomm0, if_neg havail0] at hc
      rw [if_neg hcomm1, if_pos havail1]
      omega
    · intro j r hj
      rcases eq_or_ne j i with rfl | hne
      · rw [updFn_same] at hj
        injection hj with hr
        exact ⟨v, hr.symm, rfl⟩
      · rw [updFn_ne _ hne] at hj
        obtain ⟨w, hr, hroww⟩ := hinv.done_ret j r hj
        rw [hplace] at hroww
        injection hroww with h2
        have := congrArg (fun r => r.available) h2
        simp [placeholderRow, committedRow] at this
    · intro j _ _
      exact ⟨v, rfl⟩
  | fallback =>
    by_cases hg : s.lockHeld.isNone = true
    · simp only [repoStep, hpc, hg, if_pos, Option.some.injEq] at hstep
      subst hstep
      have hlockn : s.lockHeld = none := Option.isNone_iff_eq_none.mp hg
      obtain ⟨v, hrow⟩ := hinv.fallback_free_committed i hpc hlockn
      have hret : (match s.row with
          | none => (none : Option Nat)
          | some r => if r.available == some true then r.details else none) = some v := by
        rw [hrow]
        simp [committedRow]
      refine ⟨?_, ?_, ?_, ?_, ?_, ?_, ?_⟩ <;> dsimp only
      · intro j
        rcases eq_or_ne j i with rfl | hne
        · rw [updFn_same]
          simp only [RProc.holds]
          constructor
          · intro h
            have hh := (hinv.lock_iff j).mp h
            rw [hpc] at hh; simp [RProc.holds] at hh
          · intro h; simp at h
        · rw [updFn_ne _ hne]
          exact hinv.lock_iff j
      · exact hinv.row_forms
      · intro j _
        rw [hrow]; nofun
      · intro j hj
        rcases eq_or_ne j i with rfl | hne
        · rw [updFn_same] at hj; simp [RProc.holds] at hj
        · rw [updFn_ne _ hne] at hj
          exact hinv.holds_state j hj
      · have hcomm : (∃ j, ((updFn s.pc i (RProc.done (match s.row with
            | none => (none : Option Nat)
            | some r => if r.available == some true then r.details else none))) j).isCommitter = true)
            ↔ (∃ j, ((s.pc j).isCommitter = true)) := by
          constructor
          · rintro ⟨j, hj⟩
            rcases eq_or_ne j i with rfl | hne
            · rw [updFn_same] at hj; simp [RProc.isCommitter] at hj
            · exact ⟨j, by rwa [updFn_ne _ hne] at hj⟩
          · rintro ⟨j, hj⟩
            rcases eq_or_ne j i with rfl | hne
            · rw [hpc] at hj; simp [RProc.isCommitter] at hj
            · exact ⟨j, by rwa [updFn_ne _ hne]⟩
        rw [if_congr hcomm rfl rfl]
        exact hinv.count_eq
      · intro j r hj
        rcases eq_or_ne j i with rfl | hne
        · rw [updFn_same] at hj
          injection hj with hr
          exact ⟨v, by rw [← hr, hret], hrow⟩
        · rw [updFn_ne _ hne] at hj
          exact hinv.done_ret j r hj
      · intro j hj hlock
        rcases eq_or_ne j i with rfl | hne
        · rw [updFn_same] at hj; simp at hj
        · rw [updFn_ne _ hne] at hj
          exact hinv.fallback_free_committed j hj hlock
    · simp [repoStep, hpc, hg] at hstep
  | done r =>
    simp [repoStep, hpc] at hstep

/-- `RepoInv` holds of the uninitialized key. -/
theorem repoInit_inv (n : Nat) (now : Int) : RepoInv n now (repoInit n) := by
  refine ⟨?_, Or.inl rfl, ?_, ?_, ?_, ?_, ?_⟩
  · intro i
    simp [repoInit, RProc.holds]
  · intro i h
    exact absurd rfl h
  · intro i h
    simp [repoInit, RProc.holds] at h
  · have h1 : ¬∃ i : Fin n, (((repoInit n).pc i).isCommitter = true) := by
      rintro ⟨i, hi⟩
      simp [repoInit, RProc.isCommitter] at hi
    rw [if_neg h1]
    simp [repoInit]
  · intro i r h
    simp [repoInit] at h
  · intro i h
    simp [repoInit] at h

/-- `RepoInv` holds in every state reachable by a schedule. -/
theorem repoRun_inv {n : Nat} (now ttl : Int) (httl : 0 ≤ ttl) :
    ∀ (t : List (Fin n)) (s0 s : RepoSys n),
    RepoInv n now s0 → repoRun now ttl t s0 = some s → RepoInv n now s := by
  intro t
  induction t with
  | nil =>
    intro s0 s h0 hrun
    simp only [repoRun, Option.some.injEq] at hrun
    exact hrun ▸ h0
  | cons i t ih =>
    intro s0 s h0 hrun
    simp only [repoRun] at hrun
    cases hstep : repoStep now ttl i s0 with
    | none => rw [hstep] at hrun; exact absurd hrun (by simp)
    | some s1 =>
      rw [hstep] at hrun
      exact ih s1 s (repoStep_inv now ttl httl i s0 s1 hstep h0) hrun

/-- In a completed run of the `refreshRepo` system exactly one external
fetch was issued and every caller returned the committed payload. -/
theorem repoRun_final {n : Nat} (now ttl : Int) (t : List (Fin n)) (s : RepoSys n)
    (hn : 0 < n) (httl : 0 ≤ ttl)
    (hrun : repoRun now ttl t (repoInit n) = some s)
    (hdone : ∀ i, ((s.pc i).isDone = true)) :
    s.fetchCount = 1 ∧ ∃ v, s.row = some (committedRow now v) ∧
      ∀ i, s.pc i = .done (some v) := by
  have hinv := repoRun_inv now ttl httl t (repoInit n) s (repoInit_inv n now) hrun
  have hdone' : ∀ i : Fin n, ∃ r, s.pc i = .done r := by
    intro i
    have h := hdone i
    cases hp : s.pc i <;> rw [hp] at h <;> simp [RProc.isDone] at h ⊢
  obtain ⟨r0, hr0⟩ := hdone' ⟨0, hn⟩
  obtain ⟨v, hrv, hrow⟩ := hinv.done_ret _ r0 hr0
  have hcommN : ¬∃ j, ((s.pc j).isCommitter = true) := by
    rintro ⟨j, hj⟩
    obtain ⟨rj, hrj⟩ := hdone' j
    rw [hrj] at hj
    simp [RProc.isCommitter] at hj
  have havail : s.row.bind (fun r => r.available) = some true := by
    rw [hrow]; simp [committedRow]
  refine ⟨?_, v, hrow, ?_⟩
  · have hc := hinv.count_eq
    rw [if_neg hcommN, if_pos havail] at hc
    omega
  · intro i
    obtain ⟨ri, hri⟩ := hdone' i
    obtain ⟨w, hrw, hroww⟩ := hinv.done_ret i ri hri
    rw [hrow] at hroww
    injection hroww with h2
    have hvw : w = v := committedRow_inj h2.symm
    rw [hri, hrw, hvw]

/-- C3 counterexample: the claim says a caller whose claim attempt
returns no row "reads the row's current stored value without acquiring
any lock ... never blocking until the concurrent winner's external call
finishes".  In `refreshRepo` the fallback read is
`.for("update", { of: githubRepo })` — a plain `FOR UPDATE` row lock
with no `SKIP LOCKED`.  Concretely, after schedule `[0, 1, 0, 1]` from
the uninitialized key, caller 0 holds the row lock with its external
fetch in flight (`pc 0 = winner`) and caller 1 sits at the fallback
read (`pc 1 = fallback`): caller 1 has NO enabled step — its read is
blocked on the winner's lock until the winner commits. -/
theorem fallback_read_blocks_cex :
    repoRun 0 ONE_DAY_MS repoCexTrace (repoInit 2) = some repoCexState ∧
    repoCexState.pc 0 = .winner ∧
    repoCexState.pc 1 = .fallback ∧
    repoCexState.lockHeld = some 0 ∧
    repoStep 0 ONE_DAY_MS 1 repoCexState = none := by decide

/-- C3 amended: a caller whose claim attempt returns no row does not
issue the external fetch, but its fallback read takes a blocking
`FOR UPDATE` row lock: while the winner's transaction holds the lock the
loser cannot proceed; once the lock is free the loser's read returns the
winner's freshly committed value (so it waits out the winner rather than
returning the stale value; only `refreshSource`'s fallback read is
lock-free). -/
theorem fallback_read_waits_for_winner :
    ∀ (n : Nat) (now ttl : Int) (t : List (Fin n)) (s : RepoSys n) (i : Fin n),
      0 ≤ ttl → repoRun now ttl t (repoInit n) = some s → s.pc i = .fallback →
      (s.lockHeld.isSome = true → repoStep now ttl i s = none) ∧
      (s.lockHeld = none → ∃ v, s.row = some (committedRow now v) ∧
        repoStep now ttl i s = some { s with pc := updFn s.pc i (.done (some v)) }) := by
  intro n now ttl t s i httl hrun hpc
  have hinv := repoRun_inv now ttl httl t (repoInit n) s (repoInit_inv n now) hrun
  constructor
  · intro hlock
    have hn : s.lockHeld.isNone = false := by
      cases hl : s.lockHeld
      · rw [hl] at hlock; simp at hlock
      · rfl
    simp [repoStep, hpc, hn]
  · intro hlock
    obtain ⟨v, hrow⟩ := hinv.fallback_free_committed i hpc hlock
    refine ⟨v, hrow, ?_⟩
    have hn : s.lockHeld.isNone = true := by rw [hlock]; rfl
    simp [repoStep, hpc, hn, hrow, committedRow]

/-- Witness for the amended C3: in the blocked state of `repoCexTrace`
the loser has no step; in the post-commit state of schedule
`[0, 1, 0, 1, 0, 0]` the loser's read is enabled and returns the
winner's committed payload `0`. -/
theorem fallback_read_waits_for_winner_witness :
    repoStep 0 ONE_DAY_MS 1 repoCexState = none ∧
    repoStep 0 ONE_DAY_MS 1 repoWaitState
      = some { repoWaitState with pc := updFn repoWaitState.pc 1 (.done (some 0)) } := by
  constructor
  · exact (fallback_read_waits_for_winner 2 0 ONE_DAY_MS repoCexTrace repoCexState 1
      (by decide) (by decide) (by decide)).1 (by decide)
  · obtain ⟨v, hrow, hstep⟩ := (fallback_read_waits_for_winner 2 0 ONE_DAY_MS
      [0, 1, 0, 1, 0, 0] repoWaitState 1 (by decide) (by decide) (by decide)).2 rfl
    have hv : v = 0 := by
      have h0 : repoWaitState.row = some (committedRow 0 0) := by decide
      rw [h0] at hrow
      injection hrow with h2
      exact (committedRow_inj h2).symm
    rw [hv] at hstep
    exact hstep

/-- One step of the `refreshSource` system preserves `SrcInv`. -/
theorem srcStep_inv {n : Nat} (i : Fin n) (s s' : SrcSys n)
    (hstep : srcStep i s = some s') (hinv : SrcInv n s) : SrcInv n s' := by
  have hcomm_upd : ∀ (x : SProc), x.isCommitter = false →
      ((∃ j, ((updFn s.pc i x) j).isCommitter = true)
        ↔ (∃ j, ((s.pc j).isCommitter = true) ∧ j ≠ i)) := by
    intro x hx
    constructor
    · rintro ⟨j, hj⟩
      rcases eq_or_ne j i with rfl | hne
      · rw [updFn_same, hx] at hj; exact absurd hj (by simp)
      · rw [updFn_ne _ hne] at hj; exact ⟨j, hj, hne⟩
    · rintro ⟨j, hj, hne⟩
      exact ⟨j, by rwa [updFn_ne _ hne]⟩
  cases hpc : s.pc i with
  | start =>
    by_cases hex : s.rowExists = true
    · cases huuid : s.rowUuid with
      | some u =>
        simp only [srcStep, hpc, hex, if_pos, huuid, Option.some.injEq] at hstep
        subst hstep
        have hnoti : s.lockHeld ≠ some i := fun h => by
          have := (hinv.lock_iff i).mp h
          rw [hpc] at this; simp [SProc.holds] at this
        refine ⟨?_, ?_, ?_, ?_, ?_, ?_, ?_⟩ <;> dsimp only
        · intro j
          rcases eq_or_ne j i with rfl | hne
          · rw [updFn_same]
            simp only [SProc.holds]
            exact ⟨fun h => absurd h hnoti, fun h => by simp at h⟩
          · rw [updFn_ne _ hne]; exact hinv.lock_iff j
        · intro h; exact absurd h (by simp)
        · intro h; exact absurd h (by simp)
        · intro j hj
          rcases eq_or_ne j i with rfl | hne
          · rw [updFn_same] at hj; simp [SProc.holds] at hj
          · rw [updFn_ne _ hne] at hj
            have := hinv.holds_state j hj
            rw [huuid] at this
            exact absurd this.1 (by simp)
        · rw [if_congr (hcomm_upd (SProc.done (some (some u))) rfl) rfl rfl]
          have hcomm : (∃ j, ((s.pc j).isCommitter = true) ∧ j ≠ i)
              ↔ (∃ j, ((s.pc j).isCommitter = true)) := by
            constructor
            · rintro ⟨j, hj, _⟩; exact ⟨j, hj⟩
            · rintro ⟨j, hj⟩
              refine ⟨j, hj, fun h => ?_⟩
              rw [h, hpc] at hj; simp [SProc.isCommitter] at hj
          rw [if_congr hcomm rfl rfl]
          have hc := hinv.count_eq
          rw [huuid] at hc
          exact hc
        · intro j r hj
          rcases eq_or_ne j i with rfl | hne
          · rw [updFn_same] at hj
            injection hj with hr
            exact Or.inr ⟨u, hr.symm, rfl⟩
          · rw [updFn_ne _ hne] at hj
            exact huuid ▸ hinv.done_ret j r hj
        · intro j hn
          exact absurd hn (by simp)
      | none =>
        simp only [srcStep, hpc, hex, if_pos, huuid, Option.some.injEq] at hstep
        subst hstep
        have hnoti : s.lockHeld ≠ some i := fun h => by
          have := (hinv.lock_iff i).mp h
          rw [hpc] at this; simp [SProc.holds] at this
        refine ⟨?_, ?_, ?_, ?_, ?_, ?_, ?_⟩ <;> dsimp only
        · intro j
          rcases eq_or_ne j i with rfl | hne
          · rw [updFn_same]
            simp only [SProc.holds]
            exact ⟨fun h => absurd h hnoti, fun h => by simp at h⟩
          · rw [updFn_ne _ hne]; exact hinv.lock_iff j
        · intro _; rfl
        · intro h; exact absurd h (by simp)
        · intro j hj
          rcases eq_or_ne j i with rfl | hne
          · rw [updFn_same] at hj; simp [SProc.holds] at hj
          · exact ⟨rfl, rfl⟩
        · rw [if_congr (hcomm_upd SProc.toInsert rfl) rfl rfl]
          have hcomm : (∃ j, ((s.pc j).isCommitter = true) ∧ j ≠ i)
              ↔ (∃ j, ((s.pc j).isCommitter = true)) := by
            constructor
            · rintro ⟨j, hj, _⟩; exact ⟨j, hj⟩
            · rintro ⟨j, hj⟩
              refine ⟨j, hj, fun h => ?_⟩
              rw [h, hpc] at hj; simp [SProc.isCommitter] at hj
          rw [if_congr hcomm rfl rfl]
          have hc := hinv.count_eq
          rw [huuid] at hc
          exact hc
        · intro j r hj
          rcases eq_or_ne j i with rfl | hne
          · rw [updFn_same] at hj; simp at hj
          · rw [updFn_ne _ hne] at hj
            exact huuid ▸ hinv.done_ret j r hj
        · intro j hn hj
          rcases eq_or_ne j i with rfl | hne
          · rw [updFn_same] at hj
            rcases hj with hj | hj
            · simp at hj
            · simp [SProc.isDone] at hj
          · rw [updFn_ne _ hne] at hj
            exact hinv.null_done_lock j huuid hj
    · have hex' : s.rowExists = false := by
        cases h : s.rowExists
        · rfl
        · exact absurd h hex
      simp only [srcStep, hpc, hex', Bool.false_eq_true, if_false,
        Option.some.injEq] at hstep
      subst hstep
      have hnoti : s.lockHeld ≠ some i := fun h => by
        have := (hinv.lock_iff i).mp h
        rw [hpc] at this; simp [SProc.holds] at this
      refine ⟨?_, ?_, ?_, ?_, ?_, ?_, ?_⟩ <;> dsimp only
      · intro j
        rcases eq_or_ne j i with rfl | hne
        · rw [updFn_same]
          simp only [SProc.holds]
          exact ⟨fun h => absurd h hnoti, fun h => by simp at h⟩
        · rw [updFn_ne _ hne]; exact hinv.lock_iff j
      · intro _; exact hinv.row_uuid_none hex'
      · intro _ j
        rcases eq_or_ne j i with rfl | hne
        · rw [updFn_same]; exact Or.inr rfl
        · rw [updFn_ne _ hne]; exact hinv.row_none_pcs hex' j
      · intro j hj
        rcases eq_or_ne j i with rfl | hne
        · rw [updFn_same] at hj; simp [SProc.holds] at hj
        · rw [updFn_ne _ hne] at hj
          rcases hinv.row_none_pcs hex' j with h | h <;>
            rw [h] at hj <;> simp [SProc.holds] at hj
      · rw [if_congr (hcomm_upd SProc.toInsert rfl) rfl rfl]
        have hcomm : (∃ j, ((s.pc j).isCommitter = true) ∧ j ≠ i)
            ↔ (∃ j, ((s.pc j).isCommitter = true)) := by
          constructor
          · rintro ⟨j, hj, _⟩; exact ⟨j, hj⟩
          · rintro ⟨j, hj⟩
            refine ⟨j, hj, fun h => ?_⟩
            rw [h, hpc] at hj; simp [SProc.isCommitter] at hj
        rw [if_congr hcomm rfl rfl]
        exact hinv.count_eq
      · intro j r hj
        rcases eq_or_ne j i with rfl | hne
        · rw [updFn_same] at hj; simp at hj
        · rw [updFn_ne _ hne] at hj; exact hinv.done_ret j r hj
      · intro j hn hj
        rcases eq_or_ne j i with rfl | hne
        · rw [updFn_same] at hj
          rcases hj with hj | hj
          · simp at hj
          · simp [SProc.isDone] at hj
        · rw [updFn_ne _ hne] at hj
          exact hinv.null_done_lock j hn hj
  | toInsert =>
    simp only [srcStep, hpc, Option.some.injEq] at hstep
    subst hstep
    have huu : (if s.rowExists = true then s.rowUuid else none) = s.rowUuid := by
      cases hex : s.rowExists
      · rw [hinv.row_uuid_none hex]; simp
      · simp
    have hnoti : s.lockHeld ≠ some i := fun h => by
      have := (hinv.lock_iff i).mp h
      rw [hpc] at this; simp [SProc.holds] at this
    refine ⟨?_, ?_, ?_, ?_, ?_, ?_, ?_⟩ <;> dsimp only
    · intro j
      rcases eq_or_ne j i with rfl | hne
      · rw [updFn_same]
        simp only [SProc.holds]
        exact ⟨fun h => absurd h hnoti, fun h => by simp at h⟩
      · rw [updFn_ne _ hne]; exact hinv.lock_iff j
    · intro h; exact absurd h (by simp)
    · intro h; exact absurd h (by simp)
    · intro j hj
      rcases eq_or_ne j i with rfl | hne
      · rw [updFn_same] at hj; simp [SProc.holds] at hj
      · rw [updFn_ne _ hne] at hj
        exact ⟨huu.trans (hinv.holds_state j hj).1, rfl⟩
    · rw [huu, if_congr (hcomm_upd SProc.toSelect rfl) rfl rfl]
      have hcomm : (∃ j, ((s.pc j).isCommitter = true) ∧ j ≠ i)
          ↔ (∃ j, ((s.pc j).isCommitter = true)) := by
        constructor
        · rintro ⟨j, hj, _⟩; exact ⟨j, hj⟩
        · rintro ⟨j, hj⟩
          refine ⟨j, hj, fun h => ?_⟩
          rw [h, hpc] at hj; simp [SProc.isCommitter] at hj
      rw [if_congr hcomm rfl rfl]
      exact hinv.count_eq
    · intro j r hj
      rcases eq_or_ne j i with rfl | hne
      · rw [updFn_same] at hj; simp at hj
      · rw [updFn_ne _ hne] at hj
        exact huu.symm ▸ hinv.done_ret j r hj
    · intro j hn hj
      have hn' : s.rowUuid = none := huu.symm.trans hn
      rcases eq_or_ne j i with rfl | hne
      · rw [updFn_same] at hj
        rcases hj with hj | hj
        · simp at hj
        · simp [SProc.isDone] at hj
      · rw [updFn_ne _ hne] at hj
        exact hinv.null_done_lock j hn' hj
  | toSelect =>
    have hexi : s.rowExists = true := by
      cases hex : s.rowExists
      · have := hinv.row_none_pcs hex i
        rw [hpc] at this
        rcases this with h | h <;> exact absurd h (by simp)
      · rfl
    by_cases hg : (s.rowExists && s.rowUuid.isNone && s.lockHeld.isNone) = true
    · simp only [srcStep, hpc, hg, if_pos, Option.some.injEq] at hstep
      subst hstep
      have huuidn : s.rowUuid = none := by
        rcases Bool.and_eq_true_iff.mp hg with ⟨h1, _⟩
        rcases Bool.and_eq_true_iff.mp h1 with ⟨_, h2⟩
        exact Option.isNone_iff_eq_none.mp h2
      have hlockn : s.lockHeld = none := by
        rcases Bool.and_eq_true_iff.mp hg with ⟨_, h2⟩
        exact Option.isNone_iff_eq_none.mp h2
      refine ⟨?_, ?_, ?_, ?_, ?_, ?_, ?_⟩ <;> dsimp only
      · intro j
        rcases eq_or_ne j i with rfl | hne
        · rw [updFn_same]; simp [SProc.holds]
        · rw [updFn_ne _ hne]
          constructor
          · intro h; injection h with h; exact absurd h.symm hne
          · intro h
            have := (hinv.lock_iff j).mpr h
            rw [hlockn] at this; exact absurd this (by simp)
      · intro h; rw [h] at hexi; simp at hexi
      · intro h; rw [h] at hexi; simp at hexi
      · intro j hj
        rcases eq_or_ne j i with rfl | hne
        · exact ⟨huuidn, hexi⟩
        · rw [updFn_ne _ hne] at hj
          have := (hinv.lock_iff j).mpr hj
          rw [hlockn] at this; exact absurd this (by simp)
      · have hcomm0 : ¬∃ j, ((s.pc j).isCommitter = true) := by
          rintro ⟨j, hj⟩
          have := (hinv.lock_iff j).mpr (by
            cases hpj : s.pc j <;> rw [hpj] at hj <;>
              simp [SProc.isCommitter] at hj <;> simp [hpj, SProc.holds])
          rw [hlockn] at this; exact absurd this (by simp)
        have hcomm1 : ¬∃ j, ((updFn s.pc i SProc.winner j).isCommitter = true) := by
          rw [hcomm_upd SProc.winner rfl]
          rintro ⟨j, hj, _⟩
          exact hcomm0 ⟨j, hj⟩
        rw [if_neg hcomm1]
        have hc := hinv.count_eq
        rw [if_neg hcomm0] at hc
        exact hc
      · intro j r hj
        rcases eq_or_ne j i with rfl | hne
        · rw [updFn_same] at hj; simp at hj
        · rw [updFn_ne _ hne] at hj; exact hinv.done_ret j r hj
      · intro j hn hj
        rfl
    · simp only [srcStep, hpc, hg, Bool.false_eq_true, if_false,
        Option.some.injEq] at hstep
      subst hstep
      have hnoti : s.lockHeld ≠ some i := fun h => by
        have := (hinv.lock_iff i).mp h
        rw [hpc] at this; simp [SProc.holds] at this
      refine ⟨?_, ?_, ?_, ?_, ?_, ?_, ?_⟩ <;> dsimp only
      · intro j
        rcases eq_or_ne j i with rfl | hne
        · rw [updFn_same]
          simp only [SProc.holds]
          exact ⟨fun h => absurd h hnoti, fun h => by simp at h⟩
        · rw [updFn_ne _ hne]; exact hinv.lock_iff j
      · exact hinv.row_uuid_none
      · intro h; rw [h] at hexi; simp at hexi
      · intro j hj
        rcases eq_or_ne j i with rfl | hne
        · rw [updFn_same] at hj; simp [SProc.holds] at hj
        · rw [updFn_ne _ hne] at hj; exact hinv.holds_state j hj
      · rw [if_congr (hcomm_upd SProc.fallback rfl) rfl rfl]
        have hcomm : (∃ j, ((s.pc j).isCommitter = true) ∧ j ≠ i)
            ↔ (∃ j, ((s.pc j).isCommitter = true)) := by
          constructor
          · rintro ⟨j, hj, _⟩; exact ⟨j, hj⟩
          · rintro ⟨j, hj⟩
            refine ⟨j, hj, fun h => ?_⟩
            rw [h, hpc] at hj; simp [SProc.isCommitter] at hj
        rw [if_congr hcomm rfl rfl]
        exact hinv.count_eq
      · intro j r hj
        rcases eq_or_ne j i with rfl | hne
        · rw [updFn_same] at hj; simp at hj
        · rw [updFn_ne _ hne] at hj; exact hinv.done_ret j r hj
      · intro j hn hj
        rcases eq_or_ne j i with rfl | hne
        · cases hl : s.lockHeld with
          | some k => rfl
          | none =>
            exfalso
            apply hg
            rw [hexi, hn, hl]
            rfl
        · rw [updFn_ne _ hne] at hj
          exact hinv.null_done_lock j hn hj
  | winner =>
    simp only [srcStep, hpc, Option.some.injEq] at hstep
    subst hstep
    have hlock : s.lockHeld = some i :=
      (hinv.lock_iff i).mpr (by rw [hpc]; rfl)
    have hus : s.rowUuid = none ∧ s.rowExists = true :=
      hinv.holds_state i (by rw [hpc]; rfl)
    refine ⟨?_, ?_, ?_, ?_, ?_, ?_, ?_⟩ <;> dsimp only
    · intro j
      rcases eq_or_ne j i with rfl | hne
      · rw [updFn_same, hlock]; simp [SProc.holds]
      · rw [updFn_ne _ hne, hlock]
        constructor
        · intro h; injection h with h; exact absurd h.symm hne
        · intro h
          have := (hinv.lock_iff j).mpr h
          rw [hlock] at this
          injection this with h2; exact absurd h2.symm hne
    · exact hinv.row_uuid_none
    · intro h
      exact absurd (h.symm.trans hus.2) (by simp)
    · intro j hj
      rcases eq_or_ne j i with rfl | hne
      · exact hus
      · rw [updFn_ne _ hne] at hj
        exact hinv.holds_state j hj
    · have hcomm0 : ¬∃ j, ((s.pc j).isCommitter = true) := by
        rintro ⟨j, hj⟩
        have := (hinv.lock_iff j).mpr (by
          cases hpj : s.pc j <;> rw [hpj] at hj <;>
            simp [SProc.isCommitter] at hj <;> simp [hpj, SProc.holds])
        rw [hlock] at this
        injection this with h2
        rw [← h2, hpc] at hj
        simp [SProc.isCommitter] at hj
      have hcomm1 : ∃ j, ((updFn s.pc i (SProc.committer i.val)) j).isCommitter = true :=
        ⟨i, by rw [updFn_same]; rfl⟩
      have hz : (if s.rowUuid = none then (0 : Nat) else 1) = 0 := by
        rw [hus.1]; simp
      have hc := hinv.count_eq
      rw [if_neg hcomm0, hz] at hc
      rw [if_pos hcomm1, hz]
      omega
    · intro j r hj
      rcases eq_or_ne j i with rfl | hne
      · rw [updFn_same] at hj; simp at hj
      · rw [updFn_ne _ hne] at hj; exact hinv.done_ret j r hj
    · intro j hn hj
      rw [hlock]; rfl
  | committer id =>
    simp only [srcStep, hpc, Option.some.injEq] at hstep
    subst hstep
    have hlock : s.lockHeld = some i :=
      (hinv.lock_iff i).mpr (by rw [hpc]; rfl)
    have hus : s.rowUuid = none ∧ s.rowExists = true :=
      hinv.holds_state i (by rw [hpc]; rfl)
    have hnoholds : ∀ j, ((updFn s.pc i (SProc.done (some (some id)))) j).holds ≠ true := by
      intro j hj
      rcases eq_or_ne j i with rfl | hne
      · rw [updFn_same] at hj; simp [SProc.holds] at hj
      · rw [updFn_ne _ hne] at hj
        have := (hinv.lock_iff j).mpr hj
        rw [hlock] at this
        injection this with h2; exact absurd h2.symm hne
    refine ⟨?_, ?_, ?_, ?_, ?_, ?_, ?_⟩ <;> dsimp only
    · intro j
      constructor
      · intro h; simp at h
      · intro h; exact absurd h (hnoholds j)
    · intro h
      exact absurd (h.symm.trans hus.2) (by simp)
    · intro h
      exact absurd (h.symm.trans hus.2) (by simp)
    · intro j hj; exact absurd hj (hnoholds j)
    · have hcomm0 : ∃ j, ((s.pc j).isCommitter = true) := ⟨i, by rw [hpc]; rfl⟩
      have hcomm1 : ¬∃ j, ((updFn s.pc i (SProc.done (some (some id)))) j).isCommitter = true := by
        rintro ⟨j, hj⟩
        rcases eq_or_ne j i with rfl | hne
        · rw [updFn_same] at hj; simp [SProc.isCommitter] at hj
        · rw [updFn_ne _ hne] at hj
          have := (hinv.lock_iff j).mpr (by
            cases hpj : s.pc j <;> rw [hpj] at hj <;>
              simp [SProc.isCommitter] at hj <;> simp [hpj, SProc.holds])
          rw [hlock] at this
          injection this with h2; exact absurd h2.symm hne
      have hz : (if s.rowUuid = none then (0 : Nat) else 1) = 0 := by
        rw [hus.1]; simp
      have hc := hinv.count_eq
      rw [if_pos hcomm0, hz] at hc
      rw [if_neg hcomm1, if_neg (by simp : ¬((some id : Option Nat) = none))]
      omega
    · intro j r hj
      rcases eq_or_ne j i with rfl | hne
      · rw [updFn_same] at hj
        injection hj with hr
        exact Or.inr ⟨id, hr.symm, rfl⟩
      · rw [updFn_ne _ hne] at hj
        rcases hinv.done_ret j r hj with h | ⟨u, hr, hu⟩
        · exact Or.inl h
        · rw [hus.1] at hu; exact absurd hu (by simp)
    · intro j hn hj
      exact absurd hn (by simp)
  | fallback =>
    simp only [srcStep, hpc, Option.some.injEq] at hstep
    subst hstep
    have hexi : s.rowExists = true := by
      cases hex : s.rowExists
      · have := hinv.row_none_pcs hex i
        rw [hpc] at this
        rcases this with h | h <;> exact absurd h (by simp)
      · rfl
    have hnoti : s.lockHeld ≠ some i := fun h => by
      have := (hinv.lock_iff i).mp h
      rw [hpc] at this; simp [SProc.holds] at this
    refine ⟨?_, ?_, ?_, ?_, ?_, ?_, ?_⟩ <;> dsimp only
    · intro j
      rcases eq_or_ne j i with rfl | hne
      · rw [updFn_same]
        simp only [SProc.holds]
        exact ⟨fun h => absurd h hnoti, fun h => by simp at h⟩
      · rw [updFn_ne _ hne]; exact hinv.lock_iff j
    · intro h; rw [h] at hexi; simp at hexi
    · intro h; rw [h] at hexi; simp at hexi
    · intro j hj
      rcases eq_or_ne j i with rfl | hne
      · rw [updFn_same] at hj; simp [SProc.holds] at hj
      · rw [updFn_ne _ hne] at hj; exact hinv.holds_state j hj
    · rw [if_congr (hcomm_upd (SProc.done (if s.rowExists = true then some s.rowUuid else none)) rfl) rfl rfl]
      have hcomm : (∃ j, ((s.pc j).isCommitter = true) ∧ j ≠ i)
          ↔ (∃ j, ((s.pc j).isCommitter = true)) := by
        constructor
        · rintro ⟨j, hj, _⟩; exact ⟨j, hj⟩
        · rintro ⟨j, hj⟩
          refine ⟨j, hj, fun h => ?_⟩
          rw [h, hpc] at hj; simp [SProc.isCommitter] at hj
      rw [if_congr hcomm rfl rfl]
      exact hinv.count_eq
    · intro j r hj
      rcases eq_or_ne j i with rfl | hne
      · rw [updFn_same] at hj
        injection hj with hr
        rw [hexi] at hr
        simp only [if_pos] at hr
        cases huuid : s.rowUuid with
        | none => rw [huuid] at hr; exact Or.inl hr.symm
        | some u => rw [huuid] at hr; exact Or.inr ⟨u, hr.symm, rfl⟩
      · rw [updFn_ne _ hne] at hj; exact hinv.done_ret j r hj
    · intro j hn hj
      rcases eq_or_ne j i with rfl | hne
      · exact hinv.null_done_lock j hn (Or.inl hpc)
      · rw [updFn_ne _ hne] at hj
        exact hinv.null_done_lock j hn hj
  | done r =>
    simp [srcStep, hpc] at hstep

/-- `SrcInv` holds in the uninitialized `refreshSource` state. -/
theorem srcInit_inv (n : Nat) : SrcInv n (srcInit n) := by
  refine ⟨?_, ?_, ?_, ?_, ?_, ?_, ?_⟩
  · intro i
    simp [srcInit, SProc.holds]
  · intro _
    rfl
  · intro _ i
    exact Or.inl rfl
  · intro i h
    simp [srcInit, SProc.holds] at h
  · have h1 : ¬∃ i : Fin n, (((srcInit n).pc i).isCommitter = true) := by
      rintro ⟨i, hi⟩
      simp [srcInit, SProc.isCommitter] at hi
    rw [if_neg h1]
    simp [srcInit]
  · intro i r h
    simp [srcInit] at h
  · intro i _ h
    rcases h with h | h <;> simp [srcInit, SProc.isDone] at h

/-- `SrcInv` holds in every state reachable by a schedule. -/
theorem srcRun_inv {n : Nat} :
    ∀ (t : List (Fin n)) (s0 s : SrcSys n),
    SrcInv n s0 → srcRun t s0 = some s → SrcInv n s := by
  intro t
  induction t with
  | nil =>
    intro s0 s h0 hrun
    simp only [srcRun, Option.some.injEq] at hrun
    exact hrun ▸ h0
  | cons i t ih =>
    intro s0 s h0 hrun
    simp only [srcRun] at hrun
    cases hstep : srcStep i s0 with
    | none => rw [hstep] at hrun; exact absurd hrun (by simp)
    | some s1 =>
      rw [hstep] at hrun
      exact ih s1 s (srcStep_inv i s0 s1 hstep h0) hrun

/-- In a completed run of the `refreshSource` system exactly one
external `createSource` call was issued, a single uuid is registered,
and every caller returned either the registered row or the
null-uuid placeholder its lock-free fallback read saw. -/
theorem srcRun_final {n : Nat} (t : List (Fin n)) (s : SrcSys n)
    (hn : 0 < n)
    (hrun : srcRun t (srcInit n) = some s)
    (hdone : ∀ i, ((s.pc i).isDone = true)) :
    s.createCount = 1 ∧ ∃ u, s.rowUuid = some u ∧
      ∀ i, s.pc i = .done (some (some u)) ∨ s.pc i = .done (some none) := by
  have hinv := srcRun_inv t (srcInit n) s (srcInit_inv n) hrun
  have hdone' : ∀ i : Fin n, ∃ r, s.pc i = .done r := by
    intro i
    have h := hdone i
    cases hp : s.pc i <;> rw [hp] at h <;> simp [SProc.isDone] at h ⊢
  have hlock : s.lockHeld = none := by
    cases hl : s.lockHeld with
    | none => rfl
    | some j =>
      obtain ⟨rj, hrj⟩ := hdone' j
      have := (hinv.lock_iff j).mp hl
      rw [hrj] at this
      simp [SProc.holds] at this
  have huuid : ∃ u, s.rowUuid = some u := by
    cases hu : s.rowUuid with
    | some u => exact ⟨u, rfl⟩
    | none =>
      have hd : (((s.pc ⟨0, hn⟩).isDone) = true) := hdone _
      have := hinv.null_done_lock ⟨0, hn⟩ hu (Or.inr hd)
      rw [hlock] at this
      simp at this
  obtain ⟨u, hu⟩ := huuid
  have hcommN : ¬∃ j, ((s.pc j).isCommitter = true) := by
    rintro ⟨j, hj⟩
    obtain ⟨rj, hrj⟩ := hdone' j
    rw [hrj] at hj
    simp [SProc.isCommitter] at hj
  refine ⟨?_, u, hu, ?_⟩
  · have hz : (if s.rowUuid = none then (0 : Nat) else 1) = 1 := by
      rw [hu]; simp
    have hc := hinv.count_eq
    rw [if_neg hcommN, hz] at hc
    omega
  · intro i
    obtain ⟨ri, hri⟩ := hdone' i
    rcases hinv.done_ret i ri hri with h | ⟨w, hrw, hroww⟩
    · exact Or.inr (by rw [hri, h])
    · rw [hu] at hroww
      injection hroww with h2
      exact Or.inl (by rw [hri, hrw, h2])

/-- C2 counterexample: the claim says all N concurrent registration
attempts "converge on the same externally-assigned identifier".  In
`refreshSource` the final fallback read is a plain `select ... limit 1`
with no lock and no uuid filter: under schedule `srcCexTrace` caller 1's
fallback read runs while caller 0's `createSource` call is in flight, so
caller 1 returns the placeholder row with a NULL `source_uuid` — not the
externally-assigned identifier `0` that caller 0 registers and returns. -/
theorem registration_loser_placeholder_cex :
    srcRun srcCexTrace (srcInit 2) = some srcCexFinal ∧
    srcCexFinal.createCount = 1 ∧
    srcCexFinal.rowUuid = some 0 ∧
    srcCexFinal.pc 0 = .done (some (some 0)) ∧
    srcCexFinal.pc 1 = .done (some none) := by decide

/-- C2 amended: for any number of concurrent callers on an uninitialized
key the expensive external call is made exactly once — in a completed
`refreshRepo` run (any `0 ≤ ttl`, `force = false`) exactly one external
fetch was issued and every caller returned the one committed payload
(losers block at the `FOR UPDATE` fallback read until the winner
commits); in a completed `refreshSource` run exactly one external
`createSource` call was issued, a single identifier is registered, and
every caller returned either the row carrying that identifier or the
null-uuid placeholder its lock-free fallback read saw before the
winner's commit (convergence to the registered identifier is only
eventual for such losers). -/
theorem single_flight_and_idempotent_registration
    {n : Nat} (now ttl : Int) (hn : 0 < n) (httl : 0 ≤ ttl)
    (tr : List (Fin n)) (sr : RepoSys n)
    (hrunr : repoRun now ttl tr (repoInit n) = some sr)
    (hdoner : ∀ i, ((sr.pc i).isDone = true))
    (ts : List (Fin n)) (ss : SrcSys n)
    (hruns : srcRun ts (srcInit n) = some ss)
    (hdones : ∀ i, ((ss.pc i).isDone = true)) :
    (sr.fetchCount = 1 ∧ ∃ v, sr.row = some (committedRow now v) ∧
      ∀ i, sr.pc i = .done (some v)) ∧
    (ss.createCount = 1 ∧ ∃ u, ss.rowUuid = some u ∧
      ∀ i, ss.pc i = .done (some (some u)) ∨ ss.pc i = .done (some none)) :=
  ⟨repoRun_final now ttl tr sr hn httl hrunr hdoner,
   srcRun_final ts ss hn hruns hdones⟩

/-- Witness for the amended C2: under `repoDemoTrace` both `refreshRepo`
callers return the single committed payload `0` after one fetch; under
`srcDemoTrace` both `refreshSource` callers return the single registered
uuid `0` after one create call. -/
theorem single_flight_and_idempotent_registration_witness :
    repoDemoFinal.fetchCount = 1 ∧
    repoDemoFinal.pc 0 = .done (some 0) ∧
    repoDemoFinal.pc 1 = .done (some 0) ∧
    srcDemoFinal.createCount = 1 ∧
    srcDemoFinal.pc 0 = .done (some (some 0)) ∧
    srcDemoFinal.pc 1 = .done (some (some 0)) := by
  obtain ⟨⟨hfc, v, hrow, hret⟩, hsc, u, huu, hsret⟩ :=
    single_flight_and_idempotent_registration 0 ONE_DAY_MS (by decide) (by decide)
      repoDemoTrace repoDemoFinal (by decide) (by decide)
      srcDemoTrace srcDemoFinal (by decide) (by decide)
  have hv : v = 0 := by
    have h0 : repoDemoFinal.row = some (committedRow 0 0) := rfl
    rw [h0] at hrow
    injection hrow with h2
    exact (committedRow_inj h2).symm
  have hu0 : u = 0 := by
    have h0 : srcDemoFinal.rowUuid = some 0 := rfl
    rw [h0] at huu
    injection huu with h2
    exact h2.symm
  refine ⟨hfc, ?_, ?_, hsc, ?_, ?_⟩
  · rw [hret 0, hv]
  · rw [hret 1, hv]
  · rcases hsret 0 with h | h
    · rw [h, hu0]
    · exact absurd h (by decide)
  · rcases hsret 1 with h | h
    · rw [h, hu0]
    · exact absurd h (by decide)
